import Mathlib

/-
Verification development for the RIB (Routing Information Base) core of an
NDN forwarding daemon.  The definitions below are a shallow embedding of
src/daemon/rib/rib.cpp.  Entries are identified by their names (an arena
style rendering of the shared-pointer graph in the C++ code): the table maps
names to entries, a parent pointer is an optional name, and children are
lists of names.  Observer callbacks and calls into the external FibUpdater
are modelled as an explicit list of emitted events.  Operations of RibEntry
(rib-entry.cpp, which is not part of the sources at hand) are modelled from
the specification text and marked as such in their doc comments.
-/

namespace NfdRib

/-- A name component, abstracted as a natural number standing for an opaque
byte string. -/
abbrev Component := Nat

/-- An NDN name: an ordered sequence of components.  The C++ Name operations
used by rib.cpp are getPrefix (List.take) and isPrefixOf (List.isPrefixOf). -/
abbrev NdnName := List Component

/-- Canonical order on names used by the std::map keyed by Name: shorter
names come first among names that agree componentwise, otherwise the first
differing component decides. -/
def nameLt : NdnName → NdnName → Bool
  | [], [] => false
  | [], _ :: _ => true
  | _ :: _, [] => false
  | a :: as, b :: bs => if a < b then true else if b < a then false else nameLt as bs

/-- A route record: face identifier, origin, cost, the two flags used by the
RIB (child-inherit and capture), the optional expiration time and the opaque
handle of a scheduled expiration event. -/
structure Route where
  faceId : Nat
  origin : Nat
  cost : Nat
  childInherit : Bool
  capture : Bool
  expires : Option Nat
  expirationEvent : Option Nat
deriving DecidableEq

/-- Comparator sortRoutes from rib.cpp: strict order on faceId alone. -/
def sortRoutes (lhs rhs : Route) : Bool :=
  Nat.blt lhs.faceId rhs.faceId

/-- Lookup key of a route: two routes are the same route iff faceId and
origin match (spec section 3). -/
def routeKeyEq (a b : Route) : Bool :=
  a.faceId == b.faceId && a.origin == b.origin

/-- Insertion into a std::set ordered by sortRoutes.  The set is kept as a
list strictly sorted by faceId; inserting a route whose faceId is already
present does nothing (std::set insert on an equivalent element fails). -/
def routeSetInsert : List Route → Route → List Route
  | [], r => [r]
  | x :: xs, r =>
    if r.faceId < x.faceId then r :: x :: xs
    else if x.faceId < r.faceId then x :: routeSetInsert xs r
    else x :: xs

/-- Index of the first route in the list with the given lookup key. -/
def routeIdx : List Route → Route → Option Nat
  | [], _ => none
  | x :: xs, r => if routeKeyEq x r then some 0 else (routeIdx xs r).map (· + 1)

/-- Remove the first route in the list with the given lookup key. -/
def removeFirstRoute : List Route → Route → List Route
  | [], _ => []
  | x :: xs, r => if routeKeyEq x r then xs else x :: removeFirstRoute xs r

/-- A RIB entry: prefix name, own routes in insertion order, inherited
routes, an optional parent name and the list of child names. -/
structure RibEntry where
  name : NdnName
  routes : List Route
  inheritedRoutes : List Route
  parent : Option NdnName
  children : List NdnName
deriving DecidableEq

/-- Modelled from the spec: RibEntry.findRoute of rib-entry.cpp (not under
src) looks a route up by the faceId-origin key; here it yields the index of
the first route with a matching key. -/
def RibEntry.findRouteIdx (e : RibEntry) (r : Route) : Option Nat :=
  routeIdx e.routes r

/-- Modelled from the spec: RibEntry.insertRoute of rib-entry.cpp (not under
src).  If a route with the same key already exists, return its position with
didInsert false and the entry unchanged; otherwise append the route. -/
def RibEntry.insertRoute (e : RibEntry) (r : Route) : RibEntry × Nat × Bool :=
  match e.findRouteIdx r with
  | some i => (e, i, false)
  | none => ({ e with routes := e.routes ++ [r] }, e.routes.length, true)

/-- Modelled from the spec: RibEntry.eraseRoute of rib-entry.cpp (not under
src), here by position. -/
def RibEntry.eraseRouteAt (e : RibEntry) (i : Nat) : RibEntry :=
  { e with routes := e.routes.eraseIdx i }

/-- Modelled from the spec: RibEntry.hasFaceId of rib-entry.cpp (not under
src), a linear scan over the own routes. -/
def RibEntry.hasFaceId (e : RibEntry) (fid : Nat) : Bool :=
  e.routes.any (fun r => r.faceId == fid)

/-- Modelled from the spec: RibEntry.hasCapture of rib-entry.cpp (not under
src): some own route has the capture flag. -/
def RibEntry.hasCapture (e : RibEntry) : Bool :=
  e.routes.any (fun r => r.capture)

/-- Modelled from the spec: RibEntry.addInheritedRoute of rib-entry.cpp (not
under src): record an inherited copy of the route. -/
def RibEntry.addInheritedRoute (e : RibEntry) (r : Route) : RibEntry :=
  { e with inheritedRoutes := e.inheritedRoutes ++ [r] }

/-- Modelled from the spec: RibEntry.removeInheritedRoute of rib-entry.cpp
(not under src): drop the inherited copy with the matching key. -/
def RibEntry.removeInheritedRoute (e : RibEntry) (r : Route) : RibEntry :=
  { e with inheritedRoutes := removeFirstRoute e.inheritedRoutes r }

/-- The RIB table: an association list from names to entries, kept in the
canonical name order like the std::map in the C++ code. -/
abbrev RibTable := List (NdnName × RibEntry)

/-- Lookup in the table (std::map find). -/
def tableFind (t : RibTable) (n : NdnName) : Option RibEntry :=
  match t with
  | [] => none
  | p :: rest => if p.1 = n then some p.2 else tableFind rest n

/-- Insertion of a fresh key at its sorted position (std::map operator[] on
an absent key). -/
def tableInsertNew (t : RibTable) (n : NdnName) (e : RibEntry) : RibTable :=
  match t with
  | [] => [(n, e)]
  | p :: rest => if nameLt n p.1 then (n, e) :: p :: rest else p :: tableInsertNew rest n e

/-- Point update of the entry stored under a name (mutation through the
shared pointer in the C++ code). -/
def tableUpdate (t : RibTable) (n : NdnName) (f : RibEntry → RibEntry) : RibTable :=
  t.map (fun p => if p.1 = n then (p.1, f p.2) else p)

/-- Replace the entry stored under a name. -/
def tableSet (t : RibTable) (n : NdnName) (e : RibEntry) : RibTable :=
  tableUpdate t n (fun _ => e)

/-- Remove the pair keyed by a name (std::map erase). -/
def tableErase (t : RibTable) (n : NdnName) : RibTable :=
  t.filter (fun p => !(p.1 == n))

/-- Modelled from the spec: RibEntry.addChild of rib-entry.cpp (not under
src), arena form: set the parent pointer of the child to this entry and
append the child to the children list. -/
def tableAddChild (t : RibTable) (parentName childName : NdnName) : RibTable :=
  tableUpdate (tableUpdate t childName (fun c => { c with parent := some parentName }))
    parentName (fun p => { p with children := p.children ++ [childName] })

/-- Modelled from the spec: RibEntry.removeChild of rib-entry.cpp (not under
src), arena form: null the parent pointer of the child and drop the child
from the children list. -/
def tableRemoveChild (t : RibTable) (parentName childName : NdnName) : RibTable :=
  tableUpdate (tableUpdate t childName (fun c => { c with parent := none }))
    parentName (fun p => { p with children := p.children.filter (fun x => !(x == childName)) })

/-- Observable effects of RIB operations: the four observer signals, the
cancellation of a scheduled route expiration, the invocation of a manager
callback and a call dispatched to the external FibUpdater.  Callbacks are
identified by opaque numeric tokens. -/
inductive RibUpdateAction where
  | REGISTER
  | UNREGISTER
  | REMOVE_FACE
deriving DecidableEq

/-- One RIB update: action, name and route. -/
structure RibUpdate where
  action : RibUpdateAction
  name : NdnName
  route : Route
deriving DecidableEq

/-- A batch: a faceId plus the updates sharing it (exactly one per batch in
the current code). -/
structure RibUpdateBatch where
  faceId : Nat
  updates : List RibUpdate
deriving DecidableEq

/-- A queued item: the batch plus the optional manager callbacks. -/
structure UpdateQueueItem where
  batch : RibUpdateBatch
  managerSuccessCallback : Option Nat
  managerFailureCallback : Option Nat
deriving DecidableEq

/-- Events emitted by the embedded operations. -/
inductive Event where
  | afterInsertEntry (name : NdnName)
  | afterAddRoute (name : NdnName) (r : Route)
  | beforeRemoveRoute (name : NdnName) (r : Route)
  | afterEraseEntry (name : NdnName)
  | cancelExpirationEvent (name : NdnName) (faceId : Nat) (origin : Nat)
  | invokeSuccess (cb : Nat)
  | invokeFailure (cb : Nat) (code : Nat) (msg : String)
  | dispatchCall (b : RibUpdateBatch) (onSuccess : Option Nat) (onFailure : Option Nat)
deriving DecidableEq

/-- The RIB state: table, the multimap from faceIds to entry names, the item
count, the update queue and the in-flight flag. -/
structure Rib where
  table : RibTable
  faceEntries : List (Nat × NdnName)
  nItems : Nat
  updateBatches : List UpdateQueueItem
  isUpdateInProgress : Bool
deriving DecidableEq

/-- The empty RIB. -/
def Rib.emptyRib : Rib :=
  { table := [], faceEntries := [], nItems := 0, updateBatches := [], isUpdateInProgress := false }

/-- Insertion into the faceId multimap (std::multimap emplace): the new pair
goes after all pairs with the same key. -/
def faceEntriesEmplace (l : List (Nat × NdnName)) (fid : Nat) (n : NdnName) : List (Nat × NdnName) :=
  match l with
  | [] => [(fid, n)]
  | p :: rest => if fid < p.1 then (fid, n) :: p :: rest else p :: faceEntriesEmplace rest fid n

/-- Erase from the faceId multimap the first pair matching both the faceId
and the entry name (the equal-range scan in Rib::erase). -/
def faceEntriesEraseOne (l : List (Nat × NdnName)) (fid : Nat) (n : NdnName) : List (Nat × NdnName) :=
  match l with
  | [] => []
  | p :: rest => if p.1 == fid && p.2 == n then rest else p :: faceEntriesEraseOne rest fid n

/-- Probe loop of Rib::findParent: try the first i components, then i - 1,
and so on down to the empty name, returning the first hit together with the
probed name. -/
def findParentFrom (t : RibTable) (n : NdnName) : Nat → Option (NdnName × RibEntry)
  | 0 => (tableFind t (n.take 0)).map (fun e => (n.take 0, e))
  | i + 1 =>
    match tableFind t (n.take (i + 1)) with
    | some e => some (n.take (i + 1), e)
    | none => findParentFrom t n i

/-- Rib::findParent on a bare table: for a nonempty name probe the strict
prefixes from longest to shortest; the empty name has no parent. -/
def findParentT (t : RibTable) (n : NdnName) : Option (NdnName × RibEntry) :=
  match n with
  | [] => none
  | _ :: _ => findParentFrom t n (n.length - 1)

/-- Name of the parent entry found for a prefix, if any. -/
def parentKey (t : RibTable) (n : NdnName) : Option NdnName :=
  (findParentT t n).map Prod.fst

/-- Pairs stored strictly after the given key in the table (iterator
increment after std::map find; empty when the key is absent). -/
def afterKey (t : RibTable) (n : NdnName) : RibTable :=
  match t with
  | [] => []
  | p :: rest => if p.1 = n then rest else afterKey rest n

/-- Rib::findDescendants: walk from just after the prefix while the names
remain extensions of it. -/
def descendantPairs (t : RibTable) (n : NdnName) : List (NdnName × RibEntry) :=
  (afterKey t n).takeWhile (fun p => n.isPrefixOf p.1)

/-- A fresh entry created for a new prefix, already holding the route. -/
def newEntryFor (pfx : NdnName) (route : Route) : RibEntry :=
  (RibEntry.insertRoute
    { name := pfx, routes := [], inheritedRoutes := [], parent := none, children := [] }
    route).1

/-- One round of the child-stealing loop in Rib::insert: a descendant whose
current parent equals the parent of the new entry is moved under the new
entry. -/
def stealStep (pOpt : Option NdnName) (pfx : NdnName) (acc : RibTable) (childName : NdnName) : RibTable :=
  match tableFind acc childName with
  | none => acc
  | some child =>
    if child.parent = pOpt then
      tableAddChild
        (match pOpt with
         | some pn => tableRemoveChild acc pn childName
         | none => acc)
        pfx childName
    else acc

/-- Table after step one of the new-prefix branch of Rib::insert: the fresh
entry is placed into the map. -/
def insertNewTable0 (t : RibTable) (pfx : NdnName) (route : Route) : RibTable :=
  tableInsertNew t pfx (newEntryFor pfx route)

/-- Table after step two: the new entry is linked under its parent when one
exists. -/
def insertNewTable1 (t0 : RibTable) (pfx : NdnName) (pOpt : Option NdnName) : RibTable :=
  match pOpt with
  | some pn => tableAddChild t0 pn pfx
  | none => t0

/-- Table after step three: every descendant previously parented at the
parent of the new entry is stolen by the new entry. -/
def insertNewTable2 (t1 : RibTable) (pfx : NdnName) (pOpt : Option NdnName) : RibTable :=
  (descendantPairs t1 pfx).foldl (fun acc pr => stealStep pOpt pfx acc pr.1) t1

/-- Full table transformation of the new-prefix branch of Rib::insert. -/
def insertNewTableFull (t : RibTable) (pfx : NdnName) (route : Route) : RibTable :=
  insertNewTable2
    (insertNewTable1 (insertNewTable0 t pfx route) pfx (parentKey (insertNewTable0 t pfx route) pfx))
    pfx (parentKey (insertNewTable0 t pfx route) pfx)

/-- Rib::insert.  An existing entry either receives a brand-new route
(count, face index and afterAddRoute fire) or has the matching route
refreshed in place (expiration event cancelled, fields overwritten, nothing
else happens).  A new prefix gets a fresh entry that is linked into the tree
and steals the appropriate children. -/
def Rib.insert (rib : Rib) (pfx : NdnName) (route : Route) : Rib × List Event :=
  match tableFind rib.table pfx with
  | some entry =>
    match RibEntry.insertRoute entry route with
    | (entry2, _, true) =>
      ({ rib with
          table := tableSet rib.table pfx entry2,
          nItems := rib.nItems + 1,
          faceEntries := faceEntriesEmplace rib.faceEntries route.faceId pfx },
       [Event.afterAddRoute pfx route])
    | (entry2, idx, false) =>
      ({ rib with
          table := tableSet rib.table pfx { entry2 with routes := entry2.routes.set idx route } },
       if (entry2.routes.getD idx route).expirationEvent.isSome then
         [Event.cancelExpirationEvent pfx (entry2.routes.getD idx route).faceId
            (entry2.routes.getD idx route).origin]
       else [])
  | none =>
    ({ rib with
        table := insertNewTableFull rib.table pfx route,
        nItems := rib.nItems + 1,
        faceEntries := faceEntriesEmplace rib.faceEntries route.faceId pfx },
     [Event.afterInsertEntry pfx, Event.afterAddRoute pfx route])

/-- Relink loop of Rib::eraseEntry: every child of the vanishing entry is
unlinked from it and, when a parent exists, linked under that parent. -/
def relinkChildren (pOpt : Option NdnName) (selfName : NdnName) (t : RibTable)
    (cs : List NdnName) : RibTable :=
  cs.foldl
    (fun acc c =>
      match pOpt with
      | some pn => tableAddChild (tableRemoveChild acc selfName c) pn c
      | none => tableRemoveChild acc selfName c)
    t

/-- Rib::eraseEntry: unlink the entry from its parent, hand its children to
that parent (or leave them parentless), remove the entry from the table and
fire afterEraseEntry. -/
def tableEraseEntry (t : RibTable) (n : NdnName) : RibTable × List Event :=
  match tableFind t n with
  | none => (t, [])
  | some entry =>
    (tableErase
       (relinkChildren entry.parent n
          (match entry.parent with
           | some pn => tableRemoveChild t pn n
           | none => t)
          entry.children)
       n,
     [Event.afterEraseEntry entry.name])

/-- New faceId multimap after a route with the given faceId left the entry:
the membership is dropped iff the entry holds no more routes with that
faceId. -/
def eraseFaceEntries (fe : List (Nat × NdnName)) (entry2 : RibEntry) (fid : Nat)
    (pfx : NdnName) : List (Nat × NdnName) :=
  if entry2.hasFaceId fid then fe else faceEntriesEraseOne fe fid pfx

/-- Body of Rib::erase once the entry and the route position are known. -/
def eraseFound (rib : Rib) (pfx : NdnName) (entry : RibEntry) (route : Route) (i : Nat) :
    Rib × List Event :=
  if (entry.eraseRouteAt i).routes.isEmpty then
    ({ rib with
        table := (tableEraseEntry (tableSet rib.table pfx (entry.eraseRouteAt i)) pfx).1,
        faceEntries := eraseFaceEntries rib.faceEntries (entry.eraseRouteAt i) route.faceId pfx,
        nItems := rib.nItems - 1 },
     Event.beforeRemoveRoute pfx (entry.routes.getD i route) ::
       (tableEraseEntry (tableSet rib.table pfx (entry.eraseRouteAt i)) pfx).2)
  else
    ({ rib with
        table := tableSet rib.table pfx (entry.eraseRouteAt i),
        faceEntries := eraseFaceEntries rib.faceEntries (entry.eraseRouteAt i) route.faceId pfx,
        nItems := rib.nItems - 1 },
     [Event.beforeRemoveRoute pfx (entry.routes.getD i route)])

/-- Rib::erase.  An absent prefix, or a present prefix without a route of
the given key, is a complete no-op; otherwise the route is removed, the face
index adjusted and the entry erased from the tree when its route list became
empty. -/
def Rib.erase (rib : Rib) (pfx : NdnName) (route : Route) : Rib × List Event :=
  match tableFind rib.table pfx with
  | none => (rib, [])
  | some entry =>
    match RibEntry.findRouteIdx entry route with
    | none => (rib, [])
    | some i => eraseFound rib pfx entry route i

/-- Fold of the inner collection loop of Rib::getAncestorRoutes: each route
with the child-inherit flag is inserted into the route set. -/
def collectChildInherit (acc : List Route) (routes : List Route) : List Route :=
  routes.foldl (fun s r => if r.childInherit then routeSetInsert s r else s) acc

/-- Ancestor walk of Rib::getAncestorRoutes: follow parent links upward,
collect the child-inherit routes of every visited entry and stop right after
the first entry that has a capture route.  In the C++ code the walk follows
shared pointers, which the arena model renders as table lookups; the fuel
argument bounds the walk and is always sufficient on well-formed states. -/
def ancestorWalk (t : RibTable) : Option NdnName → Nat → List Route → List Route
  | none, _, acc => acc
  | some _, 0, acc => acc
  | some pn, fuel + 1, acc =>
    match tableFind t pn with
    | none => acc
    | some p =>
      if p.hasCapture then collectChildInherit acc p.routes
      else ancestorWalk t p.parent fuel (collectChildInherit acc p.routes)

/-- Rib::getAncestorRoutes on an entry: the walk starts at the parent of the
entry. -/
def Rib.getAncestorRoutes (rib : Rib) (e : RibEntry) : List Route :=
  ancestorWalk rib.table e.parent rib.table.length []

/-- Rib::getAncestorRoutes on a name: the walk starts at findParent. -/
def Rib.getAncestorRoutesN (rib : Rib) (n : NdnName) : List Route :=
  ancestorWalk rib.table (parentKey rib.table n) rib.table.length []

/-- Ancestor chain visited by the walk, nearest first, including the first
capture entry; none when the walk would dangle or exhaust its fuel. -/
def ancestorChain (t : RibTable) : Option NdnName → Nat → Option (List RibEntry)
  | none, _ => some []
  | some _, 0 => none
  | some pn, fuel + 1 =>
    match tableFind t pn with
    | none => none
    | some p =>
      if p.hasCapture then some [p]
      else (ancestorChain t p.parent fuel).map (fun l => p :: l)

/-- Child-inherit routes of a chain of entries, in walk order. -/
def chainInheritRoutes (chain : List RibEntry) : List Route :=
  chain.foldr (fun p acc => p.routes.filter (fun r => r.childInherit) ++ acc) []

/-- Keep the first route of every faceId-origin key, in order: the
accumulator records the routes already kept. -/
def dedupByKeyAux (seen : List Route) : List Route → List Route
  | [] => []
  | r :: rs =>
    if seen.any (fun x => routeKeyEq x r) then dedupByKeyAux seen rs
    else r :: dedupByKeyAux (r :: seen) rs

/-- Keep the first route of every faceId-origin key, in order. -/
def dedupByKey (l : List Route) : List Route :=
  dedupByKeyAux [] l

/-- Stable insertion into a list sorted by faceId. -/
def insertSortedLe (r : Route) : List Route → List Route
  | [] => [r]
  | x :: xs => if r.faceId < x.faceId then r :: x :: xs else x :: insertSortedLe r xs

/-- Stable insertion sort by faceId. -/
def sortByFaceId (l : List Route) : List Route :=
  l.foldl (fun acc r => insertSortedLe r acc) []

/-- Ancestor route set exactly as claim C1 words it: the walk routes with
child-inherit, de-duplicated by the faceId-origin key with the nearest
ancestor winning, then ordered by faceId. -/
def getAncestorRoutesClaimed (rib : Rib) (e : RibEntry) : List Route :=
  match ancestorChain rib.table e.parent rib.table.length with
  | none => []
  | some chain => sortByFaceId (dedupByKey (chainInheritRoutes chain))

/-- Rib::addUpdateToQueue: wrap the update into a single-element batch keyed
by the faceId of its route and append it with its callbacks. -/
def Rib.addUpdateToQueue (rib : Rib) (u : RibUpdate) (sc fc : Option Nat) : Rib :=
  { rib with
      updateBatches := rib.updateBatches ++
        [{ batch := { faceId := u.route.faceId, updates := [u] },
           managerSuccessCallback := sc, managerFailureCallback := fc }] }

/-- Rib::sendBatchFromQueue: return when the queue is empty or an update is
in flight; otherwise raise the in-flight flag, pop the front item and
dispatch it to the FibUpdater. -/
def Rib.sendBatchFromQueue (rib : Rib) : Rib × List Event :=
  if rib.updateBatches.isEmpty || rib.isUpdateInProgress then (rib, [])
  else
    match rib.updateBatches with
    | [] => (rib, [])
    | item :: rest =>
      ({ rib with isUpdateInProgress := true, updateBatches := rest },
       [Event.dispatchCall item.batch item.managerSuccessCallback item.managerFailureCallback])

/-- Rib::beginApplyUpdate: enqueue and drain. -/
def Rib.beginApplyUpdate (rib : Rib) (u : RibUpdate) (sc fc : Option Nat) : Rib × List Event :=
  (rib.addUpdateToQueue u sc fc).sendBatchFromQueue

/-- Rib::enqueueRemoveFace: queue a REMOVE_FACE update for every route of
the entry on the given face. -/
def Rib.enqueueRemoveFace (rib : Rib) (entryName : NdnName) (fid : Nat) : Rib :=
  match tableFind rib.table entryName with
  | none => rib
  | some entry =>
    entry.routes.foldl
      (fun acc r =>
        if r.faceId == fid then
          acc.addUpdateToQueue { action := RibUpdateAction.REMOVE_FACE, name := entry.name, route := r }
            none none
        else acc)
      rib

/-- Rib::beginRemoveFace: enqueue a removal for every entry registered under
the face, then drain. -/
def Rib.beginRemoveFace (rib : Rib) (fid : Nat) : Rib × List Event :=
  ((rib.faceEntries.filter (fun p => p.1 == fid)).foldl
     (fun acc p => acc.enqueueRemoveFace p.2 fid) rib).sendBatchFromQueue

/-- Rib::beginRemoveFailedFaces: enqueue removals for every face outside the
active set, then drain. -/
def Rib.beginRemoveFailedFaces (rib : Rib) (active : List Nat) : Rib × List Event :=
  (rib.faceEntries.foldl
     (fun acc p => if active.contains p.1 then acc else acc.enqueueRemoveFace p.2 p.1) rib).sendBatchFromQueue

/-- Rib::modifyInheritedRoutes: for each precomputed inherited-route update,
look the entry up (asserted present in the C++ code; none models the
assertion failing), then add or remove the inherited copy, REMOVE_FACE being
skipped. -/
def Rib.modifyInheritedRoutes (rib : Rib) : List RibUpdate → Option Rib
  | [] => some rib
  | u :: rest =>
    match tableFind rib.table u.name with
    | none => none
    | some entry =>
      Rib.modifyInheritedRoutes
        (match u.action with
         | RibUpdateAction.REGISTER =>
             { rib with table := tableSet rib.table u.name (entry.addInheritedRoute u.route) }
         | RibUpdateAction.UNREGISTER =>
             { rib with table := tableSet rib.table u.name (entry.removeInheritedRoute u.route) }
         | RibUpdateAction.REMOVE_FACE => rib)
        rest

/-- Batch-application loop of Rib::onFibUpdateSuccess: REGISTER inserts,
UNREGISTER and REMOVE_FACE erase. -/
def applyBatchLoop : Rib → List RibUpdate → Rib × List Event
  | rib, [] => (rib, [])
  | rib, u :: rest =>
    match u.action with
    | RibUpdateAction.REGISTER =>
      ((applyBatchLoop (rib.insert u.name u.route).1 rest).1,
       (rib.insert u.name u.route).2 ++ (applyBatchLoop (rib.insert u.name u.route).1 rest).2)
    | RibUpdateAction.UNREGISTER =>
      ((applyBatchLoop (rib.erase u.name u.route).1 rest).1,
       (rib.erase u.name u.route).2 ++ (applyBatchLoop (rib.erase u.name u.route).1 rest).2)
    | RibUpdateAction.REMOVE_FACE =>
      ((applyBatchLoop (rib.erase u.name u.route).1 rest).1,
       (rib.erase u.name u.route).2 ++ (applyBatchLoop (rib.erase u.name u.route).1 rest).2)

/-- Rib::onFibUpdateSuccess: apply the originating batch, apply the
inherited-route deltas, clear the in-flight flag, invoke the success
callback when supplied and drain the queue again. -/
def Rib.onFibUpdateSuccess (rib : Rib) (batch : RibUpdateBatch) (inherited : List RibUpdate)
    (cb : Option Nat) : Option (Rib × List Event) :=
  match (applyBatchLoop rib batch.updates).1.modifyInheritedRoutes inherited with
  | none => none
  | some rib2 =>
    some
      (({ rib2 with isUpdateInProgress := false }).sendBatchFromQueue.1,
       (applyBatchLoop rib batch.updates).2 ++
         (match cb with
          | some c => [Event.invokeSuccess c]
          | none => []) ++
         ({ rib2 with isUpdateInProgress := false }).sendBatchFromQueue.2)

/-- Rib::onFibUpdateFailure: clear the in-flight flag, invoke the failure
callback when supplied and drain the queue again; the table is untouched. -/
def Rib.onFibUpdateFailure (rib : Rib) (fc : Option Nat) (code : Nat) (msg : String) :
    Rib × List Event :=
  (({ rib with isUpdateInProgress := false }).sendBatchFromQueue.1,
   (match fc with
    | some c => [Event.invokeFailure c code msg]
    | none => []) ++
   ({ rib with isUpdateInProgress := false }).sendBatchFromQueue.2)

/-- Calls to the FibUpdater contained in an event list, in order. -/
def dispatchesOf (evs : List Event) : List (RibUpdateBatch × Option Nat × Option Nat) :=
  evs.filterMap
    (fun e =>
      match e with
      | Event.dispatchCall b s f => some (b, s, f)
      | _ => none)

/-- Whole-system state for the dispatch protocol: the RIB plus the list of
FibUpdater calls that have been dispatched and not yet answered. -/
structure Sys where
  rib : Rib
  pending : List (RibUpdateBatch × Option Nat × Option Nat)
deriving DecidableEq

/-- External stimuli of the dispatch protocol: the three entry points that
enqueue work, and the FibUpdater answering the oldest outstanding call. -/
inductive SysAction where
  | beginApplyUpdate (u : RibUpdate) (onSuccess onFailure : Option Nat)
  | beginRemoveFace (faceId : Nat)
  | beginRemoveFailedFaces (active : List Nat)
  | fibSuccess (inherited : List RibUpdate)
  | fibFailure (code : Nat) (msg : String)

/-- One protocol step.  A FibUpdater answer is consumed only when a call is
outstanding; none models the assertion in modifyInheritedRoutes failing. -/
def sysStep (s : Sys) : SysAction → Option Sys
  | SysAction.beginApplyUpdate u sc fc =>
    some { rib := (s.rib.beginApplyUpdate u sc fc).1,
           pending := s.pending ++ dispatchesOf (s.rib.beginApplyUpdate u sc fc).2 }
  | SysAction.beginRemoveFace fid =>
    some { rib := (s.rib.beginRemoveFace fid).1,
           pending := s.pending ++ dispatchesOf (s.rib.beginRemoveFace fid).2 }
  | SysAction.beginRemoveFailedFaces act =>
    some { rib := (s.rib.beginRemoveFailedFaces act).1,
           pending := s.pending ++ dispatchesOf (s.rib.beginRemoveFailedFaces act).2 }
  | SysAction.fibSuccess inherited =>
    match s.pending with
    | [] => some s
    | (b, sc, _) :: rest =>
      match s.rib.onFibUpdateSuccess b inherited sc with
      | none => none
      | some (rib2, evs) => some { rib := rib2, pending := rest ++ dispatchesOf evs }
  | SysAction.fibFailure code msg =>
    match s.pending with
    | [] => some s
    | (_, _, fc) :: rest =>
      some { rib := (s.rib.onFibUpdateFailure fc code msg).1,
             pending := rest ++ dispatchesOf (s.rib.onFibUpdateFailure fc code msg).2 }

/-- Run a list of protocol steps from a state. -/
def sysRun : Sys → List SysAction → Option Sys
  | s, [] => some s
  | s, a :: rest =>
    match sysStep s a with
    | none => none
    | some s2 => sysRun s2 rest

/-- Initial system: empty RIB, no outstanding call. -/
def sysInit : Sys :=
  { rib := Rib.emptyRib, pending := [] }

/-- Serial-dispatch invariant: the number of outstanding FibUpdater calls is
one when the in-flight flag is raised and zero otherwise. -/
def sysInv (s : Sys) : Prop :=
  s.pending.length = (if s.rib.isUpdateInProgress then 1 else 0)

/-- Modelled from the spec: the single reserved name component localhost
(spec sections 4.7 and 6); components being abstract numbers, a designated
constant stands for it. -/
def LOCALHOST_COMPONENT : Component := 1000

/-- Modelled from the spec: the single reserved name component localhop. -/
def LOCALHOP_COMPONENT : Component := 1001

/-- Modelled from the spec: the nrd component stripped from the tail of a
signing identity by the host-to-gateway policy. -/
def NRD_COMPONENT : Component := 1002

/-- A readvertise action: the name to advertise, the cost and the signing
identity (the prefix field of the C++ struct is called advertisedName
here). -/
structure ReadvertiseAction where
  advertisedName : NdnName
  cost : Nat
  signer : NdnName
deriving DecidableEq

/-- Modelled from the spec: identity name with a trailing nrd component
stripped (spec section 4.7). -/
def stripNrd (idName : NdnName) : NdnName :=
  if idName.getLast? = some NRD_COMPONENT then idName.dropLast else idName

/-- Modelled from the spec: the registered identities whose stripped name is
a prefix of the route name. -/
def candidateIds (identities : List NdnName) (n : NdnName) : List NdnName :=
  identities.filter (fun idn => (stripNrd idn).isPrefixOf n)

/-- Modelled from the spec: pick the identity with the shortest stripped
name, the first winning ties. -/
def pickShortest (l : List NdnName) : Option NdnName :=
  l.foldl
    (fun acc idn =>
      match acc with
      | none => some idn
      | some b => if (stripNrd idn).length < (stripNrd b).length then some idn else acc)
    none

/-- Modelled from the spec: HostToGatewayReadvertisePolicy.handleNewRoute
(host-to-gateway-readvertise-policy.cpp is not under src).  A name beginning
with the reserved localhost or localhop component is never advertised; a
route with no registered identity prefix yields no action, matching the
PrefixToAdvertise expectations of the policy test under src; otherwise the
shortest identity prefix, stripped of a trailing nrd component, is
advertised and signed by the chosen identity. -/
def handleNewRoute (identities : List NdnName) (routeName : NdnName) (routeCost : Nat) :
    Option ReadvertiseAction :=
  if routeName.head? = some LOCALHOST_COMPONENT ∨ routeName.head? = some LOCALHOP_COMPONENT then
    none
  else
    match pickShortest (candidateIds identities routeName) with
    | none => none
    | some idn =>
      some { advertisedName := stripNrd idn, cost := routeCost, signer := idn }

/-- Strict faceId order used for sortedness statements. -/
def faceLt (a b : Route) : Prop := a.faceId < b.faceId

theorem mem_routeSetInsert {s : List Route} {r x : Route}
    (h : x ∈ routeSetInsert s r) : x ∈ s ∨ x = r := by
  induction s with
  | nil =>
    simp only [routeSetInsert, List.mem_singleton] at h
    exact Or.inr h
  | cons a as ih =>
    simp only [routeSetInsert] at h
    by_cases h1 : r.faceId < a.faceId
    · simp only [if_pos h1, List.mem_cons] at h
      rcases h with h | h | h
      · exact Or.inr h
      · exact Or.inl (by simp [h])
      · exact Or.inl (List.mem_cons_of_mem _ h)
    · by_cases h2 : a.faceId < r.faceId
      · simp only [if_neg h1, if_pos h2, List.mem_cons] at h
        rcases h with h | h
        · exact Or.inl (by simp [h])
        · rcases ih h with h3 | h3
          · exact Or.inl (List.mem_cons_of_mem _ h3)
          · exact Or.inr h3
      · simp only [if_neg h1, if_neg h2, List.mem_cons] at h
        rcases h with h | h
        · exact Or.inl (by simp [h])
        · exact Or.inl (List.mem_cons_of_mem _ h)

theorem subset_routeSetInsert {s : List Route} (r : Route) {x : Route}
    (h : x ∈ s) : x ∈ routeSetInsert s r := by
  induction s with
  | nil => cases h
  | cons a as ih =>
    simp only [routeSetInsert]
    by_cases h1 : r.faceId < a.faceId
    · simp only [if_pos h1, List.mem_cons]
      rcases List.mem_cons.1 h with h2 | h2
      · exact Or.inr (Or.inl h2)
      · exact Or.inr (Or.inr h2)
    · by_cases h2 : a.faceId < r.faceId
      · simp only [if_neg h1, if_pos h2, List.mem_cons]
        rcases List.mem_cons.1 h with h3 | h3
        · exact Or.inl h3
        · exact Or.inr (ih h3)
      · simpa only [if_neg h1, if_neg h2] using h

theorem routeSetInsert_of_faceMem {s : List Route} {r : Route}
    (hs : s.Pairwise faceLt) (h : r.faceId ∈ s.map Route.faceId) :
    routeSetInsert s r = s := by
  induction s with
  | nil => simp at h
  | cons a as ih =>
    simp only [List.map_cons, List.mem_cons] at h
    simp only [routeSetInsert]
    rcases h with h | h
    · simp [h, lt_irrefl]
    · have ha : a.faceId < r.faceId := by
        rcases List.mem_map.1 h with ⟨y, hy, hyf⟩
        have := (List.pairwise_cons.1 hs).1 y hy
        simpa [faceLt, hyf] using this
      have h1 : ¬ r.faceId < a.faceId := by omega
      simp [h1, ha, ih (List.pairwise_cons.1 hs).2 h]

theorem self_mem_routeSetInsert {s : List Route} {r : Route}
    (h : r.faceId ∉ s.map Route.faceId) : r ∈ routeSetInsert s r := by
  induction s with
  | nil => simp [routeSetInsert]
  | cons a as ih =>
    simp only [List.map_cons, List.mem_cons, not_or] at h
    simp only [routeSetInsert]
    by_cases h1 : r.faceId < a.faceId
    · simp [h1]
    · have h2 : a.faceId < r.faceId := by
        rcases Nat.lt_trichotomy r.faceId a.faceId with h3 | h3 | h3
        · exact absurd h3 h1
        · exact absurd h3 h.1
        · exact h3
      simp only [if_neg h1, if_pos h2, List.mem_cons]
      exact Or.inr (ih h.2)

theorem routeSetInsert_sorted {s : List Route} {r : Route}
    (hs : s.Pairwise faceLt) : (routeSetInsert s r).Pairwise faceLt := by
  induction s with
  | nil => simp [routeSetInsert, faceLt]
  | cons a as ih =>
    have hcons := List.pairwise_cons.1 hs
    simp only [routeSetInsert]
    by_cases h1 : r.faceId < a.faceId
    · simp only [if_pos h1]
      refine List.pairwise_cons.2 ⟨?_, hs⟩
      intro y hy
      rcases List.mem_cons.1 hy with h2 | h2
      · simpa [faceLt, h2] using h1
      · exact lt_trans h1 (hcons.1 y h2)
    · by_cases h2 : a.faceId < r.faceId
      · simp only [if_neg h1, if_pos h2]
        refine List.pairwise_cons.2 ⟨?_, ih hcons.2⟩
        intro y hy
        rcases mem_routeSetInsert hy with h3 | h3
        · exact hcons.1 y h3
        · simpa [faceLt, h3] using h2
      · simpa only [if_neg h1, if_neg h2] using hs

theorem foldl_routeSetInsert_sorted (l : List Route) {s : List Route}
    (hs : s.Pairwise faceLt) : (l.foldl routeSetInsert s).Pairwise faceLt := by
  induction l generalizing s with
  | nil => simpa using hs
  | cons x xs ih => exact ih (routeSetInsert_sorted hs)

theorem mem_faceIds_of_mem {s : List Route} {r : Route} (h : r ∈ s) :
    r.faceId ∈ s.map Route.faceId :=
  List.mem_map.2 ⟨r, h, rfl⟩

theorem foldl_routeSetInsert_mem (l : List Route) {s : List Route}
    (hs : s.Pairwise faceLt) (r : Route) :
    r ∈ l.foldl routeSetInsert s ↔
      (r ∈ s ∨ (r.faceId ∉ s.map Route.faceId ∧
        (l.filter (fun x => x.faceId == r.faceId)).head? = some r)) := by
  induction l generalizing s with
  | nil =>
    simp only [List.foldl_nil, List.filter_nil, List.head?_nil]
    simp
  | cons x xs ih =>
    simp only [List.foldl_cons]
    by_cases hx : x.faceId ∈ s.map Route.faceId
    · rw [routeSetInsert_of_faceMem hs hx]
      rw [ih hs]
      by_cases hfr : x.faceId = r.faceId
      · have hrs : r.faceId ∈ s.map Route.faceId := hfr ▸ hx
        simp [List.filter_cons, hfr, hrs]
      · have : ¬ (x.faceId == r.faceId) = true := by simpa using hfr
        simp [List.filter_cons, this]
    · have hsx : (routeSetInsert s x).Pairwise faceLt := routeSetInsert_sorted hs
      rw [ih hsx]
      have hmem : ∀ y : Route, y ∈ routeSetInsert s x ↔ (y ∈ s ∨ y = x) := by
        intro y
        constructor
        · exact mem_routeSetInsert
        · rintro (h | rfl)
          · exact subset_routeSetInsert x h
          · exact self_mem_routeSetInsert hx
      have hface : ∀ a : Nat, a ∈ (routeSetInsert s x).map Route.faceId ↔
          (a ∈ s.map Route.faceId ∨ a = x.faceId) := by
        intro a
        constructor
        · intro h
          rcases List.mem_map.1 h with ⟨y, hy, hyf⟩
          rcases (hmem y).1 hy with h2 | h2
          · exact Or.inl (hyf ▸ mem_faceIds_of_mem h2)
          · exact Or.inr (by rw [← hyf, h2])
        · rintro (h | rfl)
          · rcases List.mem_map.1 h with ⟨y, hy, hyf⟩
            exact hyf ▸ mem_faceIds_of_mem ((hmem y).2 (Or.inl hy))
          · exact mem_faceIds_of_mem ((hmem x).2 (Or.inr rfl))
      by_cases heq : r = x
      · subst heq
        have hnotin : r ∉ s := fun h => hx (mem_faceIds_of_mem h)
        simp [hmem r, hface, List.filter_cons, hx, hnotin]
      · by_cases hfr : x.faceId = r.faceId
        · have hrs : r ∉ s := fun h => hx (by rw [hfr]; exact mem_faceIds_of_mem h)
          have hrx : r ∉ routeSetInsert s x := by
            intro h
            rcases (hmem r).1 h with h2 | h2
            · exact hrs h2
            · exact heq h2
          have hfr2 : r.faceId ∈ (routeSetInsert s x).map Route.faceId := by
            rw [hface]
            exact Or.inr hfr.symm
          have hhead : ((x :: xs).filter (fun y => y.faceId == r.faceId)).head? = some x := by
            simp [List.filter_cons, hfr]
          simp only [hhead]
          constructor
          · rintro (h | ⟨h1, _⟩)
            · exact absurd h hrx
            · exact absurd hfr2 h1
          · rintro (h | ⟨_, h2⟩)
            · exact absurd h hrs
            · exact absurd (Option.some.inj h2) (Ne.symm heq)
        · have : ¬ (x.faceId == r.faceId) = true := by simpa using hfr
          simp only [List.filter_cons, this, if_neg, Bool.false_eq_true, not_false_eq_true,
            if_neg this]
          constructor
          · rintro (h | ⟨h1, h2⟩)
            · rcases (hmem r).1 h with h3 | h3
              · exact Or.inl h3
              · exact absurd h3 heq
            · refine Or.inr ⟨fun h3 => h1 ((hface r.faceId).2 (Or.inl h3)), h2⟩
          · rintro (h | ⟨h1, h2⟩)
            · exact Or.inl ((hmem r).2 (Or.inl h))
            · refine Or.inr ⟨?_, h2⟩
              intro h3
              rcases (hface r.faceId).1 h3 with h4 | h4
              · exact h1 h4
              · exact hfr h4.symm

theorem collectChildInherit_eq (routes : List Route) (acc : List Route) :
    collectChildInherit acc routes =
      (routes.filter (fun r => r.childInherit)).foldl routeSetInsert acc := by
  induction routes generalizing acc with
  | nil => simp [collectChildInherit]
  | cons x xs ih =>
    by_cases h : x.childInherit
    · simp [collectChildInherit, List.filter_cons, h] at ih ⊢
      exact ih (routeSetInsert acc x)
    · simp [collectChildInherit, List.filter_cons, h] at ih ⊢
      exact ih acc

theorem ancestorWalk_eq_fold (t : RibTable) :
    ∀ (fuel : Nat) (pn : Option NdnName) (chain : List RibEntry),
      ancestorChain t pn fuel = some chain →
      ∀ acc : List Route,
        ancestorWalk t pn fuel acc = (chainInheritRoutes chain).foldl routeSetInsert acc := by
  intro fuel
  induction fuel with
  | zero =>
    intro pn chain h acc
    cases pn with
    | none =>
      simp only [ancestorChain, Option.some.injEq] at h
      subst h
      simp [ancestorWalk, chainInheritRoutes]
    | some pname => simp [ancestorChain] at h
  | succ fuel ih =>
    intro pn chain h acc
    cases pn with
    | none =>
      simp only [ancestorChain, Option.some.injEq] at h
      subst h
      simp [ancestorWalk, chainInheritRoutes]
    | some pname =>
      simp only [ancestorChain] at h
      cases hfind : tableFind t pname with
      | none => rw [hfind] at h; cases h
      | some p =>
        rw [hfind] at h
        by_cases hcap : p.hasCapture
        · simp only [hcap, if_true, Option.some.injEq] at h
          subst h
          simp only [ancestorWalk, hfind, hcap, if_true]
          rw [collectChildInherit_eq]
          simp [chainInheritRoutes]
        · simp only [hcap, if_false, Bool.false_eq_true] at h
          cases hrec : ancestorChain t p.parent fuel with
          | none => rw [hrec] at h; cases h
          | some chain2 =>
            rw [hrec] at h
            have h2 : p :: chain2 = chain := by simpa using h
            subst h2
            simp only [ancestorWalk, hfind, hcap, if_false, Bool.false_eq_true]
            rw [collectChildInherit_eq, ih p.parent chain2 hrec]
            have h3 : chainInheritRoutes (p :: chain2) =
                p.routes.filter (fun r => r.childInherit) ++ chainInheritRoutes chain2 := rfl
            rw [h3, List.foldl_append]

theorem walkCharacterization (t : RibTable) (pn : Option NdnName) (fuel : Nat)
    (chain : List RibEntry) (h : ancestorChain t pn fuel = some chain) :
    (ancestorWalk t pn fuel []).Pairwise faceLt ∧
      ∀ r : Route, r ∈ ancestorWalk t pn fuel [] ↔
        ((chainInheritRoutes chain).filter (fun x => x.faceId == r.faceId)).head? = some r := by
  rw [ancestorWalk_eq_fold t fuel pn chain h]
  constructor
  · exact foldl_routeSetInsert_sorted _ (by simp)
  · intro r
    rw [foldl_routeSetInsert_mem _ (by simp) r]
    simp

/-- A concrete route used by the C1 counterexample: face 1, origin 0, with
the child-inherit flag. -/
def cexRouteA : Route :=
  { faceId := 1, origin := 0, cost := 0, childInherit := true, capture := false,
    expires := none, expirationEvent := none }

/-- A concrete route with the same faceId but a different origin. -/
def cexRouteB : Route :=
  { faceId := 1, origin := 1, cost := 0, childInherit := true, capture := false,
    expires := none, expirationEvent := none }

/-- A concrete route on a second face without the child-inherit flag. -/
def cexRouteC : Route :=
  { faceId := 2, origin := 0, cost := 0, childInherit := false, capture := false,
    expires := none, expirationEvent := none }

/-- A reachable RIB built by three insertions: the parent holds two
child-inherit routes that differ only in origin, and a child entry exists
below it. -/
def cexRib : Rib :=
  (((Rib.emptyRib.insert [5] cexRouteA).1.insert [5] cexRouteB).1.insert [5, 6] cexRouteC).1

/-- The child entry of the counterexample RIB. -/
def cexEntry : RibEntry :=
  (tableFind cexRib.table [5, 6]).getD
    { name := [], routes := [], inheritedRoutes := [], parent := none, children := [] }

/-- The ancestor chain of the counterexample entry. -/
def cexChain : List RibEntry :=
  (ancestorChain cexRib.table cexEntry.parent cexRib.table.length).getD []

/-- Claim C1, counterexample.  The walk from the parent of the child entry
meets two child-inherit routes with distinct faceId-origin keys, so the
result the claim describes keeps both; the code keeps only one, because the
set comparator sortRoutes orders by faceId alone and the second insertion
fails on the equivalent faceId.  Hence getAncestorRoutes differs from the
claimed result at this concrete reachable state. -/
theorem claim_C1_cex :
    cexRib.getAncestorRoutes cexEntry ≠ getAncestorRoutesClaimed cexRib cexEntry ∧
    cexRouteB ∈ chainInheritRoutes cexChain ∧
    cexRouteB ∈ getAncestorRoutesClaimed cexRib cexEntry ∧
    cexRouteB ∉ cexRib.getAncestorRoutes cexEntry := by
  refine ⟨?_, ?_, ?_, ?_⟩ <;> decide

/-- Claim C1, amended.  For every RIB state and every entry (or name) E
whose ancestor chain resolves, getAncestorRoutes returns the child-inherit
routes collected by walking from the parent of E upward, stopping
inclusively at the first ancestor having a capture route, ordered by faceId
and de-duplicated by faceId alone (not by the faceId-origin pair), the
nearest ancestor and the earliest-listed route winning on a duplicate
faceId: the result is strictly sorted by faceId and a route belongs to it
exactly when it is the first route of its faceId in the walk order. -/
theorem claim_C1 :
    (∀ (rib : Rib) (e : RibEntry) (chain : List RibEntry),
       ancestorChain rib.table e.parent rib.table.length = some chain →
       (rib.getAncestorRoutes e).Pairwise faceLt ∧
       (∀ r : Route, r ∈ rib.getAncestorRoutes e ↔
          ((chainInheritRoutes chain).filter (fun x => x.faceId == r.faceId)).head? = some r)) ∧
    (∀ (rib : Rib) (n : NdnName) (chain : List RibEntry),
       ancestorChain rib.table (parentKey rib.table n) rib.table.length = some chain →
       (rib.getAncestorRoutesN n).Pairwise faceLt ∧
       (∀ r : Route, r ∈ rib.getAncestorRoutesN n ↔
          ((chainInheritRoutes chain).filter (fun x => x.faceId == r.faceId)).head? = some r)) := by
  constructor
  · intro rib e chain h
    exact walkCharacterization rib.table e.parent rib.table.length chain h
  · intro rib n chain h
    exact walkCharacterization rib.table (parentKey rib.table n) rib.table.length chain h

/-- Claim C1, witness: the amended theorem applied to the concrete
counterexample state. -/
theorem claim_C1_witness :
    (cexRib.getAncestorRoutes cexEntry).Pairwise faceLt ∧
    (cexRouteA ∈ cexRib.getAncestorRoutes cexEntry ↔
       ((chainInheritRoutes cexChain).filter
          (fun x => x.faceId == cexRouteA.faceId)).head? = some cexRouteA) :=
  ⟨(claim_C1.1 cexRib cexEntry cexChain (by decide)).1,
   (claim_C1.1 cexRib cexEntry cexChain (by decide)).2 cexRouteA⟩

theorem tableFind_tableUpdate (t : RibTable) (n : NdnName) (f : RibEntry → RibEntry)
    (m : NdnName) :
    tableFind (tableUpdate t n f) m =
      if m = n then (tableFind t n).map f else tableFind t m := by
  induction t with
  | nil => by_cases h : m = n <;> simp [tableUpdate, tableFind, h]
  | cons p rest ih =>
    simp only [tableUpdate, List.map_cons] at ih ⊢
    by_cases hm : m = n
    · simp only [hm] at ih ⊢
      by_cases hp : p.1 = n
      · simp [tableFind, hp]
      · simp only [tableFind, if_neg hp]
        exact ih
    · simp only [if_neg hm] at ih ⊢
      by_cases hp : p.1 = n
      · have hpm : ¬ (p.1 = m) := by
          rw [hp]
          exact fun hc => hm hc.symm
        simp only [tableFind, if_pos hp, if_neg hpm]
        exact ih
      · simp only [tableFind, if_neg hp]
        by_cases hpm : p.1 = m
        · simp [hpm]
        · simp only [if_neg hpm]
          exact ih

theorem tableFind_tableSet (t : RibTable) (n : NdnName) (e : RibEntry) (m : NdnName) :
    tableFind (tableSet t n e) m =
      if m = n then (tableFind t n).map (fun _ => e) else tableFind t m :=
  tableFind_tableUpdate t n (fun _ => e) m

theorem tableFind_tableErase (t : RibTable) (n m : NdnName) :
    tableFind (tableErase t n) m = if m = n then none else tableFind t m := by
  induction t with
  | nil => by_cases h : m = n <;> simp [tableErase, tableFind, h]
  | cons p rest ih =>
    simp only [tableErase, List.filter_cons] at ih ⊢
    by_cases hp : p.1 = n
    · have hb : (!(p.1 == n)) = false := by simp [hp]
      simp only [hb, Bool.false_eq_true, if_false]
      rw [ih]
      by_cases hm : m = n
      · simp [hm]
      · have hpm : ¬ (p.1 = m) := by
          rw [hp]
          exact fun hc => hm hc.symm
        simp [tableFind, hm, hpm]
    · have hb : (!(p.1 == n)) = true := by simp [hp]
      simp only [hb, if_true]
      by_cases hpm : p.1 = m
      · have hm : ¬ (m = n) := fun hc => hp (by rw [hpm, hc])
        simp [tableFind, hpm, hm]
      · simp only [tableFind, if_neg hpm]
        exact ih

theorem tableFind_tableInsertNew (t : RibTable) (n : NdnName) (e : RibEntry) (m : NdnName)
    (h : tableFind t n = none) :
    tableFind (tableInsertNew t n e) m = if m = n then some e else tableFind t m := by
  induction t with
  | nil =>
    by_cases hm : m = n
    · simp [tableInsertNew, tableFind, hm]
    · have hnm : ¬ (n = m) := fun hc => hm hc.symm
      simp [tableInsertNew, tableFind, hm, hnm]
  | cons p rest ih =>
    have hp : ¬ (p.1 = n) := by
      intro hcontra
      simp [tableFind, hcontra] at h
    have hrest : tableFind rest n = none := by
      simpa [tableFind, hp] using h
    have ih2 := ih hrest
    simp only [tableInsertNew]
    by_cases hlt : nameLt n p.1
    · simp only [if_pos hlt]
      by_cases hm : m = n
      · simp [tableFind, hm]
      · have hnm : ¬ (n = m) := fun hc => hm hc.symm
        simp [tableFind, hnm, hm]
    · simp only [if_neg hlt]
      by_cases hpm : p.1 = m
      · have hm : ¬ (m = n) := fun hc => hp (by rw [hpm, hc])
        simp [tableFind, hpm, hm]
      · simp only [tableFind, if_neg hpm]
        rw [ih2]

/-- Recognizer of failure-callback invocations. -/
def isFailureInvocation (e : Event) : Bool :=
  match e with
  | Event.invokeFailure _ _ _ => true
  | _ => false

theorem sendBatch_noop (rib : Rib)
    (h : rib.updateBatches = [] ∨ rib.isUpdateInProgress = true) :
    rib.sendBatchFromQueue = (rib, []) := by
  rcases h with h | h
  · simp [Rib.sendBatchFromQueue, h]
  · simp [Rib.sendBatchFromQueue, h]

theorem sendBatch_dispatch (rib : Rib) (item : UpdateQueueItem) (rest : List UpdateQueueItem)
    (hq : rib.updateBatches = item :: rest) (hf : rib.isUpdateInProgress = false) :
    rib.sendBatchFromQueue =
      ({ rib with isUpdateInProgress := true, updateBatches := rest },
       [Event.dispatchCall item.batch item.managerSuccessCallback item.managerFailureCallback]) := by
  simp [Rib.sendBatchFromQueue, hq, hf]

/-- Claim C2.  Whenever the FibUpdater reports failure, the table, item
count and face index are exactly as before the update was dispatched, the
originating failure callback is invoked exactly once with the same code and
message when one was supplied and never otherwise, and the queue is drained
again: with an empty queue the in-flight flag ends cleared and nothing is
dispatched, and with a nonempty queue its front item is dispatched next. -/
theorem claim_C2 :
    ∀ (rib : Rib) (fc : Option Nat) (code : Nat) (msg : String),
      (rib.onFibUpdateFailure fc code msg).1.table = rib.table ∧
      (rib.onFibUpdateFailure fc code msg).1.nItems = rib.nItems ∧
      (rib.onFibUpdateFailure fc code msg).1.faceEntries = rib.faceEntries ∧
      ((rib.onFibUpdateFailure fc code msg).2.filter isFailureInvocation =
        match fc with
        | some c => [Event.invokeFailure c code msg]
        | none => []) ∧
      (rib.updateBatches = [] →
        (rib.onFibUpdateFailure fc code msg).1.isUpdateInProgress = false ∧
        dispatchesOf (rib.onFibUpdateFailure fc code msg).2 = []) ∧
      (∀ (item : UpdateQueueItem) (rest : List UpdateQueueItem),
        rib.updateBatches = item :: rest →
        (rib.onFibUpdateFailure fc code msg).1.isUpdateInProgress = true ∧
        (rib.onFibUpdateFailure fc code msg).1.updateBatches = rest ∧
        dispatchesOf (rib.onFibUpdateFailure fc code msg).2 =
          [(item.batch, item.managerSuccessCallback, item.managerFailureCallback)]) := by
  intro rib fc code msg
  cases hq : rib.updateBatches with
  | nil =>
    refine ⟨?_, ?_, ?_, ?_, ?_, ?_⟩ <;>
      cases fc <;>
        simp [Rib.onFibUpdateFailure, Rib.sendBatchFromQueue, hq, dispatchesOf,
          isFailureInvocation]
  | cons item rest =>
    refine ⟨?_, ?_, ?_, ?_, ?_, ?_⟩
    · cases fc <;>
        simp [Rib.onFibUpdateFailure, Rib.sendBatchFromQueue, hq]
    · cases fc <;>
        simp [Rib.onFibUpdateFailure, Rib.sendBatchFromQueue, hq]
    · cases fc <;>
        simp [Rib.onFibUpdateFailure, Rib.sendBatchFromQueue, hq]
    · cases fc <;>
        simp [Rib.onFibUpdateFailure, Rib.sendBatchFromQueue, hq, isFailureInvocation]
    · intro hcontra
      cases hcontra
    · intro item2 rest2 hq2
      cases hq2
      cases fc <;>
        simp [Rib.onFibUpdateFailure, Rib.sendBatchFromQueue, hq, dispatchesOf]

/-- A concrete queue item for the C2 witness. -/
def c2Item : UpdateQueueItem :=
  { batch := { faceId := 1, updates := [] },
    managerSuccessCallback := none, managerFailureCallback := some 3 }

/-- A concrete RIB with one queued item and an update in flight. -/
def c2Rib : Rib :=
  { table := [], faceEntries := [], nItems := 0,
    updateBatches := [c2Item], isUpdateInProgress := true }

/-- Claim C2, witness at a concrete state with a nonempty queue. -/
theorem claim_C2_witness :
    (c2Rib.onFibUpdateFailure (some 9) 404 "fib rejected the update").1.table = c2Rib.table ∧
    ((c2Rib.onFibUpdateFailure (some 9) 404 "fib rejected the update").1.isUpdateInProgress = true ∧
     (c2Rib.onFibUpdateFailure (some 9) 404 "fib rejected the update").1.updateBatches = [] ∧
     dispatchesOf (c2Rib.onFibUpdateFailure (some 9) 404 "fib rejected the update").2 =
       [(c2Item.batch, c2Item.managerSuccessCallback, c2Item.managerFailureCallback)]) :=
  ⟨(claim_C2 c2Rib (some 9) 404 "fib rejected the update").1,
   (claim_C2 c2Rib (some 9) 404 "fib rejected the update").2.2.2.2.2 c2Item [] rfl⟩

/-- One originating update applied as claim C3 words it: REGISTER via
insert, UNREGISTER or REMOVE_FACE via erase. -/
def applyOneUpdateSpec (rib : Rib) (u : RibUpdate) : Rib × List Event :=
  match u.action with
  | RibUpdateAction.REGISTER => rib.insert u.name u.route
  | RibUpdateAction.UNREGISTER => rib.erase u.name u.route
  | RibUpdateAction.REMOVE_FACE => rib.erase u.name u.route

/-- Batch application as claim C3 words it: a left fold over the updates in
order, accumulating the emitted events. -/
def applyBatchSpec (rib : Rib) (updates : List RibUpdate) : Rib × List Event :=
  updates.foldl
    (fun p u => ((applyOneUpdateSpec p.1 u).1, p.2 ++ (applyOneUpdateSpec p.1 u).2))
    (rib, [])

/-- One inherited-routes delta applied as claim C3 words it: REGISTER adds
the inherited copy to the named entry, UNREGISTER removes it, REMOVE_FACE is
a no-op on inheritance. -/
def applyDeltaSpec (rib : Rib) (u : RibUpdate) : Rib :=
  match u.action with
  | RibUpdateAction.REMOVE_FACE => rib
  | RibUpdateAction.REGISTER =>
    match tableFind rib.table u.name with
    | some e => { rib with table := tableSet rib.table u.name (e.addInheritedRoute u.route) }
    | none => rib
  | RibUpdateAction.UNREGISTER =>
    match tableFind rib.table u.name with
    | some e => { rib with table := tableSet rib.table u.name (e.removeInheritedRoute u.route) }
    | none => rib

/-- The success path as claim C3 words it: the originating batch first, then
each delta in order, then the in-flight flag is cleared, the success
callback invoked when supplied, and the queue drained again. -/
def onFibUpdateSuccessSpec (rib : Rib) (batch : RibUpdateBatch) (inherited : List RibUpdate)
    (cb : Option Nat) : Rib × List Event :=
  (({ inherited.foldl applyDeltaSpec (applyBatchSpec rib batch.updates).1 with
      isUpdateInProgress := false }).sendBatchFromQueue.1,
   (applyBatchSpec rib batch.updates).2 ++
     (match cb with
      | some c => [Event.invokeSuccess c]
      | none => []) ++
     ({ inherited.foldl applyDeltaSpec (applyBatchSpec rib batch.updates).1 with
        isUpdateInProgress := false }).sendBatchFromQueue.2)

theorem applyBatchSpec_fold (l : List RibUpdate) :
    ∀ (rib : Rib) (evs : List Event),
      l.foldl (fun p u => ((applyOneUpdateSpec p.1 u).1, p.2 ++ (applyOneUpdateSpec p.1 u).2))
          (rib, evs) =
        ((applyBatchLoop rib l).1, evs ++ (applyBatchLoop rib l).2) := by
  induction l with
  | nil =>
    intro rib evs
    simp [applyBatchLoop]
  | cons u rest ih =>
    intro rib evs
    simp only [List.foldl_cons]
    rw [ih]
    cases hu : u.action <;>
      simp [applyBatchLoop, applyOneUpdateSpec, hu, List.append_assoc]

theorem applyBatchSpec_eq (rib : Rib) (l : List RibUpdate) :
    applyBatchSpec rib l = applyBatchLoop rib l := by
  rw [applyBatchSpec, applyBatchSpec_fold]
  simp

theorem tableSet_isSome (t : RibTable) (n : NdnName) (e : RibEntry) (m : NdnName) :
    (tableFind (tableSet t n e) m).isSome = (tableFind t m).isSome := by
  rw [tableFind_tableSet]
  by_cases h : m = n
  · cases hfind : tableFind t n <;> simp [h, hfind]
  · simp [h]

theorem modifyInheritedRoutes_eq_fold :
    ∀ (l : List RibUpdate) (rib : Rib),
      (∀ u ∈ l, (tableFind rib.table u.name).isSome) →
      rib.modifyInheritedRoutes l = some (l.foldl applyDeltaSpec rib) := by
  intro l
  induction l with
  | nil =>
    intro rib _
    simp [Rib.modifyInheritedRoutes]
  | cons u rest ih =>
    intro rib h
    have hu := h u (List.mem_cons_self u rest)
    cases hfind : tableFind rib.table u.name with
    | none =>
      rw [hfind] at hu
      simp at hu
    | some entry =>
      have hrest : ∀ (e2 : RibEntry), ∀ v ∈ rest,
          (tableFind (tableSet rib.table u.name e2) v.name).isSome := by
        intro e2 v hv
        rw [tableSet_isSome]
        exact h v (List.mem_cons_of_mem _ hv)
      cases hact : u.action with
      | REGISTER =>
        simp only [Rib.modifyInheritedRoutes, hfind, hact, List.foldl_cons]
        rw [ih _ (hrest (entry.addInheritedRoute u.route))]
        simp [applyDeltaSpec, hact, hfind]
      | UNREGISTER =>
        simp only [Rib.modifyInheritedRoutes, hfind, hact, List.foldl_cons]
        rw [ih _ (hrest (entry.removeInheritedRoute u.route))]
        simp [applyDeltaSpec, hact, hfind]
      | REMOVE_FACE =>
        simp only [Rib.modifyInheritedRoutes, hfind, hact, List.foldl_cons]
        rw [ih _ (fun v hv => h v (List.mem_cons_of_mem _ hv))]
        simp [applyDeltaSpec, hact]

/-- Claim C3.  On the success callback the RIB first applies the originating
batch in order (REGISTER via insert, UNREGISTER and REMOVE_FACE via erase),
then applies each update of the returned inherited-routes delta list in
order (REGISTER via addInheritedRoute, UNREGISTER via removeInheritedRoute,
REMOVE_FACE as a no-op on inheritance), then clears the in-flight flag,
invokes the success callback when supplied, and dispatches the next queued
batch; stated as equality with the step-by-step description, under the
asserted precondition that every delta name is present after the batch. -/
theorem claim_C3 :
    ∀ (rib : Rib) (batch : RibUpdateBatch) (inherited : List RibUpdate) (cb : Option Nat),
      (∀ u ∈ inherited, (tableFind (applyBatchLoop rib batch.updates).1.table u.name).isSome) →
      rib.onFibUpdateSuccess batch inherited cb =
        some (onFibUpdateSuccessSpec rib batch inherited cb) := by
  intro rib batch inherited cb h
  unfold Rib.onFibUpdateSuccess onFibUpdateSuccessSpec
  rw [modifyInheritedRoutes_eq_fold inherited _ h, applyBatchSpec_eq]

/-- A concrete route for the C3 witness. -/
def c3Route : Route :=
  { faceId := 4, origin := 2, cost := 1, childInherit := false, capture := false,
    expires := none, expirationEvent := none }

/-- A concrete single-update batch registering a prefix. -/
def c3Batch : RibUpdateBatch :=
  { faceId := 4,
    updates := [{ action := RibUpdateAction.REGISTER, name := [3], route := c3Route }] }

/-- A concrete inherited-routes delta targeting the freshly inserted
prefix. -/
def c3Delta : List RibUpdate :=
  [{ action := RibUpdateAction.REGISTER, name := [3], route := c3Route }]

/-- Claim C3, witness at a concrete batch and delta list. -/
theorem claim_C3_witness :
    Rib.emptyRib.onFibUpdateSuccess c3Batch c3Delta (some 7) =
      some (onFibUpdateSuccessSpec Rib.emptyRib c3Batch c3Delta (some 7)) :=
  claim_C3 Rib.emptyRib c3Batch c3Delta (some 7) (by decide)

/-- Claim C4.  When insert meets an entry already holding a route with the
same faceId-origin key at position i, the entry is refreshed in place: the
table keeps the entry with only position i overwritten (every other
position, and the list length, unchanged), the item count and face index do
not change, the cancellation of the scheduled expiration event is emitted
exactly when one existed, and neither afterAddRoute nor afterInsertEntry
fires. -/
theorem claim_C4 :
    ∀ (rib : Rib) (pfx : NdnName) (route : Route) (entry : RibEntry) (i : Nat),
      tableFind rib.table pfx = some entry →
      entry.findRouteIdx route = some i →
      (rib.insert pfx route).1 =
        { rib with
            table := tableSet rib.table pfx { entry with routes := entry.routes.set i route } } ∧
      (rib.insert pfx route).1.nItems = rib.nItems ∧
      (rib.insert pfx route).1.faceEntries = rib.faceEntries ∧
      ((rib.insert pfx route).2 =
        if (entry.routes.getD i route).expirationEvent.isSome then
          [Event.cancelExpirationEvent pfx (entry.routes.getD i route).faceId
             (entry.routes.getD i route).origin]
        else []) ∧
      (entry.routes.set i route).length = entry.routes.length ∧
      (∀ j : Nat, j ≠ i → (entry.routes.set i route)[j]? = entry.routes[j]?) ∧
      (∀ e : Event, e ∈ (rib.insert pfx route).2 →
        (∀ n : NdnName, e ≠ Event.afterInsertEntry n) ∧
        (∀ (n : NdnName) (r : Route), e ≠ Event.afterAddRoute n r)) := by
  intro rib pfx route entry i hfind hidx
  have hins : RibEntry.insertRoute entry route = (entry, i, false) := by
    simp [RibEntry.insertRoute, RibEntry.findRouteIdx] at hidx ⊢
    simp [hidx]
  refine ⟨?_, ?_, ?_, ?_, ?_, ?_, ?_⟩
  · simp [Rib.insert, hfind, hins]
  · simp [Rib.insert, hfind, hins]
  · simp [Rib.insert, hfind, hins]
  · simp [Rib.insert, hfind, hins]
  · simp
  · intro j hj
    exact List.getElem?_set_ne (fun hc => hj hc.symm)
  · intro e he
    simp only [Rib.insert, hfind, hins] at he
    by_cases hexp : (entry.routes.getD i route).expirationEvent.isSome
    · rw [if_pos hexp] at he
      simp only [List.mem_singleton] at he
      subst he
      exact ⟨fun n => by simp, fun n r => by simp⟩
    · rw [if_neg hexp] at he
      cases he

/-- Claim C5.  Erase with a prefix absent from the table, or with a prefix
present but holding no route of the matching key, is a complete no-op: the
whole state (table, face index, item count, queue, flag) is returned
unchanged and no event fires; the absence is absorbed rather than reported
as a failure. -/
theorem claim_C5 :
    ∀ (rib : Rib) (pfx : NdnName) (route : Route),
      (tableFind rib.table pfx = none → rib.erase pfx route = (rib, [])) ∧
      (∀ entry : RibEntry,
        tableFind rib.table pfx = some entry →
        entry.findRouteIdx route = none →
        rib.erase pfx route = (rib, [])) := by
  intro rib pfx route
  constructor
  · intro hfind
    simp [Rib.erase, hfind]
  · intro entry hfind hidx
    simp [Rib.erase, hfind, hidx]

/-- A concrete route used by the C4 and C5 witnesses. -/
def c4Route : Route :=
  { faceId := 6, origin := 1, cost := 2, childInherit := false, capture := false,
    expires := some 10, expirationEvent := some 42 }

/-- A concrete one-entry RIB holding that route. -/
def c4Rib : Rib := (Rib.emptyRib.insert [8] c4Route).1

/-- The stored entry of that RIB. -/
def c4Entry : RibEntry :=
  (tableFind c4Rib.table [8]).getD
    { name := [], routes := [], inheritedRoutes := [], parent := none, children := [] }

/-- A refreshed version of the route with a later expiration. -/
def c4Route2 : Route :=
  { faceId := 6, origin := 1, cost := 3, childInherit := true, capture := false,
    expires := some 20, expirationEvent := none }

/-- Claim C4, witness: refreshing the stored route leaves the item count in
place and cancels the pending expiration event. -/
theorem claim_C4_witness :
    (c4Rib.insert [8] c4Route2).1.nItems = c4Rib.nItems ∧
    ((c4Rib.insert [8] c4Route2).2 =
      if (c4Entry.routes.getD 0 c4Route2).expirationEvent.isSome then
        [Event.cancelExpirationEvent [8] (c4Entry.routes.getD 0 c4Route2).faceId
           (c4Entry.routes.getD 0 c4Route2).origin]
      else []) :=
  ⟨(claim_C4 c4Rib [8] c4Route2 c4Entry 0 (by decide) (by decide)).2.1,
   (claim_C4 c4Rib [8] c4Route2 c4Entry 0 (by decide) (by decide)).2.2.2.1⟩

/-- A route with a key absent from the witness RIB. -/
def c5Route : Route :=
  { faceId := 6, origin := 9, cost := 0, childInherit := false, capture := false,
    expires := none, expirationEvent := none }

/-- Claim C5, witness: erasing an absent prefix and erasing an absent key
from a present prefix are both no-ops on a concrete state. -/
theorem claim_C5_witness :
    c4Rib.erase [9] c4Route = (c4Rib, []) ∧ c4Rib.erase [8] c5Route = (c4Rib, []) :=
  ⟨(claim_C5 c4Rib [9] c4Route).1 (by decide),
   (claim_C5 c4Rib [8] c5Route).2 c4Entry (by decide) (by decide)⟩

theorem dispatchesOf_append (a b : List Event) :
    dispatchesOf (a ++ b) = dispatchesOf a ++ dispatchesOf b := by
  simp [dispatchesOf, List.filterMap_append]

theorem tableEraseEntry_snd (t : RibTable) (n : NdnName) :
    (tableEraseEntry t n).2 = [] ∨
      ∃ nm : NdnName, (tableEraseEntry t n).2 = [Event.afterEraseEntry nm] := by
  cases hfind : tableFind t n with
  | none => exact Or.inl (by simp [tableEraseEntry, hfind])
  | some entry => exact Or.inr ⟨entry.name, by simp [tableEraseEntry, hfind]⟩

theorem insert_queue_inv (rib : Rib) (pfx : NdnName) (route : Route) :
    (rib.insert pfx route).1.updateBatches = rib.updateBatches ∧
    (rib.insert pfx route).1.isUpdateInProgress = rib.isUpdateInProgress ∧
    dispatchesOf (rib.insert pfx route).2 = [] := by
  cases hfind : tableFind rib.table pfx with
  | none => simp [Rib.insert, hfind, dispatchesOf]
  | some entry =>
    rcases hins : RibEntry.insertRoute entry route with ⟨e2, i, di⟩
    cases di
    · refine ⟨by simp [Rib.insert, hfind, hins], by simp [Rib.insert, hfind, hins], ?_⟩
      by_cases hexp : (e2.routes.getD i route).expirationEvent.isSome <;>
        simp [Rib.insert, hfind, hins, hexp, dispatchesOf]
    · simp [Rib.insert, hfind, hins, dispatchesOf]

theorem erase_queue_inv (rib : Rib) (pfx : NdnName) (route : Route) :
    (rib.erase pfx route).1.updateBatches = rib.updateBatches ∧
    (rib.erase pfx route).1.isUpdateInProgress = rib.isUpdateInProgress ∧
    dispatchesOf (rib.erase pfx route).2 = [] := by
  cases hfind : tableFind rib.table pfx with
  | none => simp [Rib.erase, hfind, dispatchesOf]
  | some entry =>
    cases hidx : RibEntry.findRouteIdx entry route with
    | none => simp [Rib.erase, hfind, hidx, dispatchesOf]
    | some i =>
      by_cases hemp : (entry.eraseRouteAt i).routes.isEmpty
      · refine ⟨by simp [Rib.erase, hfind, hidx, eraseFound, hemp],
          by simp [Rib.erase, hfind, hidx, eraseFound, hemp], ?_⟩
        simp only [Rib.erase, hfind, hidx, eraseFound, hemp, if_true]
        rcases tableEraseEntry_snd (tableSet rib.table pfx (entry.eraseRouteAt i)) pfx with
          h | ⟨nm, h⟩ <;> rw [h] <;> simp [dispatchesOf]
      · simp [Rib.erase, hfind, hidx, eraseFound, hemp, dispatchesOf]

theorem applyBatchLoop_inv (l : List RibUpdate) :
    ∀ rib : Rib,
      (applyBatchLoop rib l).1.updateBatches = rib.updateBatches ∧
      (applyBatchLoop rib l).1.isUpdateInProgress = rib.isUpdateInProgress ∧
      dispatchesOf (applyBatchLoop rib l).2 = [] := by
  induction l with
  | nil =>
    intro rib
    simp [applyBatchLoop, dispatchesOf]
  | cons u rest ih =>
    intro rib
    cases hu : u.action
    · refine ⟨?_, ?_, ?_⟩ <;>
        simp only [applyBatchLoop, hu, dispatchesOf_append]
      · rw [(ih _).1, (insert_queue_inv rib u.name u.route).1]
      · rw [(ih _).2.1, (insert_queue_inv rib u.name u.route).2.1]
      · rw [(insert_queue_inv rib u.name u.route).2.2, (ih _).2.2]
        rfl
    · refine ⟨?_, ?_, ?_⟩ <;>
        simp only [applyBatchLoop, hu, dispatchesOf_append]
      · rw [(ih _).1, (erase_queue_inv rib u.name u.route).1]
      · rw [(ih _).2.1, (erase_queue_inv rib u.name u.route).2.1]
      · rw [(erase_queue_inv rib u.name u.route).2.2, (ih _).2.2]
        rfl
    · refine ⟨?_, ?_, ?_⟩ <;>
        simp only [applyBatchLoop, hu, dispatchesOf_append]
      · rw [(ih _).1, (erase_queue_inv rib u.name u.route).1]
      · rw [(ih _).2.1, (erase_queue_inv rib u.name u.route).2.1]
      · rw [(erase_queue_inv rib u.name u.route).2.2, (ih _).2.2]
        rfl

theorem modifyInheritedRoutes_inv :
    ∀ (l : List RibUpdate) (rib rib2 : Rib),
      rib.modifyInheritedRoutes l = some rib2 →
      rib2.updateBatches = rib.updateBatches ∧
      rib2.isUpdateInProgress = rib.isUpdateInProgress := by
  intro l
  induction l with
  | nil =>
    intro rib rib2 h
    simp only [Rib.modifyInheritedRoutes, Option.some.injEq] at h
    subst h
    exact ⟨rfl, rfl⟩
  | cons u rest ih =>
    intro rib rib2 h
    cases hfind : tableFind rib.table u.name with
    | none => simp [Rib.modifyInheritedRoutes, hfind] at h
    | some entry =>
      cases hact : u.action
      · simp only [Rib.modifyInheritedRoutes, hfind, hact] at h
        have h2 := ih _ _ h
        exact ⟨h2.1, h2.2⟩
      · simp only [Rib.modifyInheritedRoutes, hfind, hact] at h
        have h2 := ih _ _ h
        exact ⟨h2.1, h2.2⟩
      · simp only [Rib.modifyInheritedRoutes, hfind, hact] at h
        have h2 := ih _ _ h
        exact ⟨h2.1, h2.2⟩

theorem foldl_flag_preserved {α : Type} (f : Rib → α → Rib)
    (hf : ∀ (acc : Rib) (x : α), (f acc x).isUpdateInProgress = acc.isUpdateInProgress) :
    ∀ (l : List α) (rib : Rib), (l.foldl f rib).isUpdateInProgress = rib.isUpdateInProgress := by
  intro l
  induction l with
  | nil => intro rib; rfl
  | cons x xs ih =>
    intro rib
    rw [List.foldl_cons, ih, hf]

theorem enqueueRemoveFace_flag (rib : Rib) (n : NdnName) (fid : Nat) :
    (rib.enqueueRemoveFace n fid).isUpdateInProgress = rib.isUpdateInProgress := by
  unfold Rib.enqueueRemoveFace
  cases tableFind rib.table n with
  | none => rfl
  | some entry =>
    exact foldl_flag_preserved _
      (fun acc r => by by_cases h : (r.faceId == fid) = true <;> simp [h, Rib.addUpdateToQueue])
      entry.routes rib

theorem dispatchesOf_failureEvs (fc : Option Nat) (code : Nat) (msg : String) :
    dispatchesOf
      (match fc with
       | some c => [Event.invokeFailure c code msg]
       | none => []) = [] := by
  cases fc <;> simp [dispatchesOf]

theorem dispatchesOf_successEvs (sc : Option Nat) :
    dispatchesOf
      (match sc with
       | some c => [Event.invokeSuccess c]
       | none => []) = [] := by
  cases sc <;> simp [dispatchesOf]

theorem sendPhase_inv (rib1 : Rib) (pending : List (RibUpdateBatch × Option Nat × Option Nat))
    (hinv : pending.length = if rib1.isUpdateInProgress then 1 else 0) :
    (pending ++ dispatchesOf rib1.sendBatchFromQueue.2).length =
      if rib1.sendBatchFromQueue.1.isUpdateInProgress then 1 else 0 := by
  by_cases hf : rib1.isUpdateInProgress
  · rw [sendBatch_noop rib1 (Or.inr hf)]
    simpa [dispatchesOf, hf] using hinv
  · have hf2 : rib1.isUpdateInProgress = false := by simpa using hf
    have hpl : pending.length = 0 := by simpa [hf2] using hinv
    cases hq : rib1.updateBatches with
    | nil =>
      rw [sendBatch_noop rib1 (Or.inl hq)]
      simpa [dispatchesOf, hf2] using hinv
    | cons item rest =>
      rw [sendBatch_dispatch rib1 item rest hq hf2]
      simp [dispatchesOf, hpl]

theorem sysStep_inv (s s2 : Sys) (a : SysAction) (h : sysStep s a = some s2)
    (hinv : sysInv s) : sysInv s2 := by
  cases a with
  | beginApplyUpdate u sc fc =>
    cases h
    exact sendPhase_inv (s.rib.addUpdateToQueue u sc fc) s.pending hinv
  | beginRemoveFace fid =>
    cases h
    have hflag :
        ((s.rib.faceEntries.filter (fun p => p.1 == fid)).foldl
            (fun acc p => acc.enqueueRemoveFace p.2 fid) s.rib).isUpdateInProgress =
          s.rib.isUpdateInProgress :=
      foldl_flag_preserved _
        (fun (acc : Rib) (p : Nat × NdnName) => enqueueRemoveFace_flag acc p.2 fid) _ s.rib
    exact sendPhase_inv _ s.pending (by rw [hflag]; exact hinv)
  | beginRemoveFailedFaces act =>
    cases h
    have hflag :
        (s.rib.faceEntries.foldl
            (fun acc p => if act.contains p.1 then acc else acc.enqueueRemoveFace p.2 p.1)
            s.rib).isUpdateInProgress =
          s.rib.isUpdateInProgress :=
      foldl_flag_preserved _
        (fun (acc : Rib) (p : Nat × NdnName) => by
          cases hc : act.contains p.1 <;> simp [hc, enqueueRemoveFace_flag])
        _ s.rib
    exact sendPhase_inv _ s.pending (by rw [hflag]; exact hinv)
  | fibSuccess inherited =>
    cases hp : s.pending with
    | nil =>
      rw [sysInv, hp] at hinv
      simp only [sysStep, hp] at h
      cases h
      rw [sysInv, hp]
      exact hinv
    | cons front rest =>
      rcases front with ⟨b, sc, fc⟩
      have hflagtrue : s.rib.isUpdateInProgress = true := by
        rw [sysInv, hp] at hinv
        by_contra hc
        simp only [Bool.not_eq_true] at hc
        rw [hc] at hinv
        simp at hinv
      have hrest : rest = [] := by
        rw [sysInv, hp, hflagtrue] at hinv
        simpa using hinv
      subst hrest
      simp only [sysStep, hp] at h
      cases hmod : (applyBatchLoop s.rib b.updates).1.modifyInheritedRoutes inherited with
      | none =>
        simp only [Rib.onFibUpdateSuccess, hmod] at h
        cases h
      | some rib2 =>
        simp only [Rib.onFibUpdateSuccess, hmod, Option.some.injEq] at h
        subst h
        rw [sysInv]
        simp only [List.nil_append, dispatchesOf_append,
          (applyBatchLoop_inv b.updates s.rib).2.2, dispatchesOf_successEvs]
        simpa using sendPhase_inv { rib2 with isUpdateInProgress := false } [] (by simp)
  | fibFailure code msg =>
    cases hp : s.pending with
    | nil =>
      simp only [sysStep, hp] at h
      cases h
      rw [sysInv, hp]
      rw [sysInv, hp] at hinv
      exact hinv
    | cons front rest =>
      rcases front with ⟨b, sc, fc⟩
      have hflagtrue : s.rib.isUpdateInProgress = true := by
        rw [sysInv, hp] at hinv
        by_contra hc
        simp only [Bool.not_eq_true] at hc
        rw [hc] at hinv
        simp at hinv
      have hrest : rest = [] := by
        rw [sysInv, hp, hflagtrue] at hinv
        simpa using hinv
      subst hrest
      simp only [sysStep, hp] at h
      cases h
      rw [sysInv]
      simp only [Rib.onFibUpdateFailure, List.nil_append, dispatchesOf_append,
        dispatchesOf_failureEvs]
      simpa using sendPhase_inv { s.rib with isUpdateInProgress := false } [] (by simp)

theorem sysRun_inv :
    ∀ (acts : List SysAction) (s s2 : Sys),
      sysRun s acts = some s2 → sysInv s → sysInv s2 := by
  intro acts
  induction acts with
  | nil =>
    intro s s2 h hinv
    simp only [sysRun, Option.some.injEq] at h
    subst h
    exact hinv
  | cons a rest ih =>
    intro s s2 h hinv
    cases hstep : sysStep s a with
    | none => simp [sysRun, hstep] at h
    | some s1 =>
      simp only [sysRun, hstep] at h
      exact ih s1 s2 h (sysStep_inv s s1 a hstep hinv)

/-- Claim C6.  In every run of the dispatch protocol from the initial state
at most one FibUpdater call is outstanding, and the drain step returns
without dispatching whenever the queue is empty or an update is in flight,
while otherwise it raises the in-flight flag, pops the front item and
dispatches exactly it. -/
theorem claim_C6 :
    (∀ (acts : List SysAction) (s2 : Sys),
       sysRun sysInit acts = some s2 → s2.pending.length ≤ 1) ∧
    (∀ rib : Rib,
       rib.updateBatches = [] ∨ rib.isUpdateInProgress = true →
       rib.sendBatchFromQueue = (rib, [])) ∧
    (∀ (rib : Rib) (item : UpdateQueueItem) (rest : List UpdateQueueItem),
       rib.updateBatches = item :: rest → rib.isUpdateInProgress = false →
       rib.sendBatchFromQueue =
         ({ rib with isUpdateInProgress := true, updateBatches := rest },
          [Event.dispatchCall item.batch item.managerSuccessCallback
             item.managerFailureCallback])) := by
  refine ⟨?_, sendBatch_noop, sendBatch_dispatch⟩
  intro acts s2 h
  have hinv : sysInv s2 := sysRun_inv acts sysInit s2 h (by rw [sysInv]; simp [sysInit, Rib.emptyRib])
  rw [sysInv] at hinv
  rw [hinv]
  by_cases hf : s2.rib.isUpdateInProgress <;> simp [hf]

/-- A concrete update for the C6 witness. -/
def c6Update : RibUpdate :=
  { action := RibUpdateAction.REGISTER, name := [2], route := c3Route }

/-- A concrete action sequence: one registration followed by a FibUpdater
failure. -/
def c6Acts : List SysAction :=
  [SysAction.beginApplyUpdate c6Update none none, SysAction.fibFailure 5 "fib down"]

/-- The state reached by that sequence. -/
def c6Sys : Sys :=
  (sysRun sysInit c6Acts).getD sysInit

/-- A concrete queue item for the C6 witness. -/
def c6Item : UpdateQueueItem :=
  { batch := { faceId := 4, updates := [c6Update] },
    managerSuccessCallback := some 1, managerFailureCallback := none }

/-- A concrete in-flight RIB for the drain no-op case. -/
def c6RibBusy : Rib :=
  { table := [], faceEntries := [], nItems := 0, updateBatches := [c6Item],
    isUpdateInProgress := true }

/-- A concrete idle RIB with one queued item for the dispatch case. -/
def c6RibReady : Rib :=
  { table := [], faceEntries := [], nItems := 0, updateBatches := [c6Item],
    isUpdateInProgress := false }

/-- Claim C6, witness: the invariant at a concrete run and the two drain
behaviors at concrete states. -/
theorem claim_C6_witness :
    c6Sys.pending.length ≤ 1 ∧
    c6RibBusy.sendBatchFromQueue = (c6RibBusy, []) ∧
    c6RibReady.sendBatchFromQueue =
      ({ c6RibReady with isUpdateInProgress := true, updateBatches := [] },
       [Event.dispatchCall c6Item.batch c6Item.managerSuccessCallback
          c6Item.managerFailureCallback]) :=
  ⟨claim_C6.1 c6Acts c6Sys (by decide),
   claim_C6.2.1 c6RibBusy (Or.inr rfl),
   claim_C6.2.2 c6RibReady c6Item [] rfl rfl⟩

/-- Claim C9.  A route whose name begins with the reserved localhost or
localhop component is never advertised by the host-to-gateway policy,
whatever the registered signing identities and the cost are. -/
theorem claim_C9 :
    ∀ (identities : List NdnName) (routeName : NdnName) (routeCost : Nat),
      routeName.head? = some LOCALHOST_COMPONENT ∨
        routeName.head? = some LOCALHOP_COMPONENT →
      handleNewRoute identities routeName routeCost = none := by
  intro ids n c h
  unfold handleNewRoute
  rw [if_pos h]

/-- Claim C9, witness: the two reserved prefixes of the policy test, with
and without registered identities. -/
theorem claim_C9_witness :
    handleNewRoute [[LOCALHOST_COMPONENT], [7]] [LOCALHOST_COMPONENT, 3] 200 = none ∧
    handleNewRoute [] [LOCALHOP_COMPONENT, 9] 200 = none :=
  ⟨claim_C9 [[LOCALHOST_COMPONENT], [7]] [LOCALHOST_COMPONENT, 3] 200 (Or.inl rfl),
   claim_C9 [] [LOCALHOP_COMPONENT, 9] 200 (Or.inr rfl)⟩

theorem modifyInheritedRoutes_isSome :
    ∀ (l : List RibUpdate) (rib : Rib),
      (rib.modifyInheritedRoutes l).isSome ↔
        ∀ u ∈ l, (tableFind rib.table u.name).isSome := by
  intro l
  induction l with
  | nil =>
    intro rib
    simp [Rib.modifyInheritedRoutes]
  | cons u rest ih =>
    intro rib
    cases hfind : tableFind rib.table u.name with
    | none =>
      simp only [Rib.modifyInheritedRoutes, hfind, Option.isSome_none, Bool.false_eq_true,
        false_iff, not_forall]
      exact ⟨u, ⟨List.mem_cons_self u rest, by simp [hfind]⟩⟩
    | some entry =>
      cases hact : u.action
      · simp only [Rib.modifyInheritedRoutes, hfind, hact]
        rw [ih]
        constructor
        · intro hall v hv
          rcases List.mem_cons.1 hv with h1 | h1
          · rw [h1, hfind]
            rfl
          · have h2 := hall v h1
            rwa [tableSet_isSome] at h2
        · intro hall v hv
          rw [tableSet_isSome]
          exact hall v (List.mem_cons_of_mem _ hv)
      · simp only [Rib.modifyInheritedRoutes, hfind, hact]
        rw [ih]
        constructor
        · intro hall v hv
          rcases List.mem_cons.1 hv with h1 | h1
          · rw [h1, hfind]
            rfl
          · have h2 := hall v h1
            rwa [tableSet_isSome] at h2
        · intro hall v hv
          rw [tableSet_isSome]
          exact hall v (List.mem_cons_of_mem _ hv)
      · simp only [Rib.modifyInheritedRoutes, hfind, hact]
        rw [ih]
        constructor
        · intro hall v hv
          rcases List.mem_cons.1 hv with h1 | h1
          · rw [h1, hfind]
            rfl
          · exact hall v h1
        · intro hall v hv
          exact hall v (List.mem_cons_of_mem _ hv)

/-- Claim C10.  Applying the inherited-routes delta list requires, per
update, that the named entry is present: the whole application succeeds
exactly when every name of the list is found in the table.  Under that
precondition a REGISTER delta adds the inherited copy to the named entry, an
UNREGISTER delta removes it, and a REMOVE_FACE delta leaves the RIB
untouched. -/
theorem claim_C10 :
    (∀ (rib : Rib) (l : List RibUpdate),
       (rib.modifyInheritedRoutes l).isSome ↔
         ∀ u ∈ l, (tableFind rib.table u.name).isSome) ∧
    (∀ (rib : Rib) (u : RibUpdate) (entry : RibEntry),
       tableFind rib.table u.name = some entry →
       u.action = RibUpdateAction.REGISTER →
       rib.modifyInheritedRoutes [u] =
         some { rib with
                 table := tableSet rib.table u.name (entry.addInheritedRoute u.route) }) ∧
    (∀ (rib : Rib) (u : RibUpdate) (entry : RibEntry),
       tableFind rib.table u.name = some entry →
       u.action = RibUpdateAction.UNREGISTER →
       rib.modifyInheritedRoutes [u] =
         some { rib with
                 table := tableSet rib.table u.name (entry.removeInheritedRoute u.route) }) ∧
    (∀ (rib : Rib) (u : RibUpdate) (entry : RibEntry),
       tableFind rib.table u.name = some entry →
       u.action = RibUpdateAction.REMOVE_FACE →
       rib.modifyInheritedRoutes [u] = some rib) := by
  refine ⟨?_, ?_, ?_, ?_⟩
  · intro rib l
    exact modifyInheritedRoutes_isSome l rib
  · intro rib u entry hfind hact
    simp [Rib.modifyInheritedRoutes, hfind, hact]
  · intro rib u entry hfind hact
    simp [Rib.modifyInheritedRoutes, hfind, hact]
  · intro rib u entry hfind hact
    simp [Rib.modifyInheritedRoutes, hfind, hact]

/-- A concrete single-entry RIB for the C10 witness. -/
def c10Rib : Rib := (Rib.emptyRib.insert [3] c3Route).1

/-- The entry stored in it. -/
def c10Entry : RibEntry :=
  (tableFind c10Rib.table [3]).getD
    { name := [], routes := [], inheritedRoutes := [], parent := none, children := [] }

/-- A concrete REGISTER delta against the present name. -/
def c10Upd : RibUpdate :=
  { action := RibUpdateAction.REGISTER, name := [3], route := c3Route }

/-- Claim C10, witness: the success criterion and the REGISTER effect at a
concrete state. -/
theorem claim_C10_witness :
    ((c10Rib.modifyInheritedRoutes [c10Upd]).isSome ↔
       ∀ u ∈ [c10Upd], (tableFind c10Rib.table u.name).isSome) ∧
    c10Rib.modifyInheritedRoutes [c10Upd] =
      some { c10Rib with
              table := tableSet c10Rib.table c10Upd.name
                (c10Entry.addInheritedRoute c10Upd.route) } :=
  ⟨claim_C10.1 c10Rib [c10Upd],
   claim_C10.2.1 c10Rib c10Upd c10Entry (by decide) rfl⟩

theorem tableFind_none_iff (t : RibTable) (q : NdnName) :
    tableFind t q = none ↔ q ∉ t.map Prod.fst := by
  induction t with
  | nil => simp [tableFind]
  | cons p rest ih =>
    by_cases hp : p.1 = q
    · simp only [tableFind, if_pos hp]
      constructor
      · intro h
        cases h
      · intro h
        exact absurd (by rw [← hp]; exact List.mem_map.2 ⟨p, List.mem_cons_self p rest, rfl⟩) h
    · simp only [tableFind, if_neg hp, List.map_cons, List.mem_cons]
      rw [ih]
      constructor
      · intro h hmem
        rcases hmem with h1 | h1
        · exact hp h1.symm
        · exact h h1
      · intro h h1
        exact h (Or.inr h1)

theorem tableFind_mem {t : RibTable} {q : NdnName} {e : RibEntry}
    (h : tableFind t q = some e) : (q, e) ∈ t := by
  induction t with
  | nil => cases h
  | cons p rest ih =>
    by_cases hp : p.1 = q
    · simp only [tableFind, if_pos hp, Option.some.injEq] at h
      subst h
      rw [← hp]
      exact List.mem_cons_self p rest
    · simp only [tableFind, if_neg hp] at h
      exact List.mem_cons_of_mem p (ih h)

theorem findParentFrom_none (t : RibTable) (n : NdnName) :
    ∀ i : Nat, findParentFrom t n i = none → ∀ j ≤ i, tableFind t (n.take j) = none := by
  intro i
  induction i with
  | zero =>
    intro h j hj
    have hj0 : j = 0 := Nat.le_zero.1 hj
    subst hj0
    simp only [findParentFrom] at h
    cases hfind : tableFind t (n.take 0) with
    | none => rfl
    | some e =>
      rw [hfind] at h
      cases h
  | succ i ih =>
    intro h j hj
    simp only [findParentFrom] at h
    cases hfind : tableFind t (n.take (i + 1)) with
    | some e =>
      rw [hfind] at h
      cases h
    | none =>
      rw [hfind] at h
      rcases Nat.lt_or_ge j (i + 1) with hlt | hge
      · exact ih h j (Nat.lt_succ_iff.1 hlt)
      · have hje : j = i + 1 := Nat.le_antisymm hj hge
        rw [hje]
        exact hfind

theorem findParentFrom_some (t : RibTable) (n : NdnName) :
    ∀ (i : Nat) (q : NdnName) (e : RibEntry),
      findParentFrom t n i = some (q, e) →
      ∃ j, j ≤ i ∧ q = n.take j ∧ tableFind t (n.take j) = some e ∧
        ∀ k, j < k → k ≤ i → tableFind t (n.take k) = none := by
  intro i
  induction i with
  | zero =>
    intro q e h
    simp only [findParentFrom] at h
    cases hfind : tableFind t (n.take 0) with
    | none =>
      rw [hfind] at h
      cases h
    | some e2 =>
      rw [hfind] at h
      simp only [Option.map_some', Option.some.injEq, Prod.mk.injEq] at h
      refine ⟨0, Nat.le_refl 0, h.1.symm, ?_, ?_⟩
      · rw [hfind, h.2]
      · intro k hk1 hk2
        exact absurd (Nat.lt_of_lt_of_le hk1 hk2) (Nat.lt_irrefl 0)
  | succ i ih =>
    intro q e h
    simp only [findParentFrom] at h
    cases hfind : tableFind t (n.take (i + 1)) with
    | some e2 =>
      rw [hfind] at h
      simp only [Option.some.injEq, Prod.mk.injEq] at h
      refine ⟨i + 1, Nat.le_refl _, h.1.symm, ?_, ?_⟩
      · rw [hfind, h.2]
      · intro k hk1 hk2
        exact absurd (Nat.lt_of_lt_of_le hk1 hk2) (Nat.lt_irrefl (i + 1))
    | none =>
      rw [hfind] at h
      obtain ⟨j, hj, hq, hfound, hnone⟩ := ih q e h
      refine ⟨j, Nat.le_succ_of_le hj, hq, hfound, ?_⟩
      intro k hk1 hk2
      rcases Nat.lt_or_ge k (i + 1) with hlt | hge
      · exact hnone k hk1 (Nat.lt_succ_iff.1 hlt)
      · have hke : k = i + 1 := Nat.le_antisymm hk2 hge
        rw [hke]
        exact hfind

/-- Claim C8.  findParent probes the strict prefixes of a name from longest
to shortest and returns the first table hit: a returned entry is stored
under a strict prefix of the name that is longest among all table keys that
are strict prefixes, and a none result means no strict prefix of the name is
a table key; when the stored names agree with the keys, the returned entry
carries that prefix as its name. -/
theorem claim_C8 :
    (∀ (rib : Rib) (n q : NdnName) (e : RibEntry),
       findParentT rib.table n = some (q, e) →
       q <+: n ∧ q ≠ n ∧ tableFind rib.table q = some e ∧
         ∀ m ∈ rib.table.map Prod.fst, m <+: n → m ≠ n → m.length ≤ q.length) ∧
    (∀ (rib : Rib) (n : NdnName),
       findParentT rib.table n = none →
       ∀ m ∈ rib.table.map Prod.fst, m <+: n → m ≠ n → False) ∧
    (∀ (rib : Rib) (n q : NdnName) (e : RibEntry),
       (∀ p ∈ rib.table, p.2.name = p.1) →
       findParentT rib.table n = some (q, e) → e.name = q) := by
  refine ⟨?_, ?_, ?_⟩
  · intro rib n q e h
    cases n with
    | nil => simp [findParentT] at h
    | cons c cs =>
      simp only [findParentT] at h
      obtain ⟨j, hj, hq, hfound, hnone⟩ := findParentFrom_some rib.table (c :: cs) _ q e h
      have hjlt : j < (c :: cs).length := by
        simp only [List.length_cons] at hj ⊢
        omega
      have hqlen : q.length = j := by
        rw [hq, List.length_take]
        omega
      have hqpre : q <+: (c :: cs) := by
        rw [hq]
        exact List.take_prefix j (c :: cs)
      refine ⟨hqpre, ?_, hq ▸ hfound, ?_⟩
      · intro hc
        rw [hc] at hqlen
        omega
      · intro m hm hmpre hmne
        have hmlt : m.length < (c :: cs).length := by
          rcases Nat.lt_or_ge m.length (c :: cs).length with h1 | h1
          · exact h1
          · have h2 : m.length = (c :: cs).length :=
              Nat.le_antisymm hmpre.length_le h1
            exact absurd (hmpre.eq_of_length h2) hmne
        by_contra hcon
        have hjm : j < m.length := by omega
        have hmtake : m = (c :: cs).take m.length := List.prefix_iff_eq_take.1 hmpre
        have hmmax : m.length ≤ (c :: cs).length - 1 := by
          simp only [List.length_cons] at hmlt ⊢
          omega
        have hnm := hnone m.length hjm hmmax
        rw [← hmtake] at hnm
        exact (tableFind_none_iff rib.table m).1 hnm hm
  · intro rib n h m hm hmpre hmne
    cases n with
    | nil =>
      have : m = [] := List.prefix_nil.1 hmpre
      exact hmne (by rw [this])
    | cons c cs =>
      simp only [findParentT] at h
      have hmlt : m.length < (c :: cs).length := by
        rcases Nat.lt_or_ge m.length (c :: cs).length with h1 | h1
        · exact h1
        · have h2 : m.length = (c :: cs).length :=
            Nat.le_antisymm hmpre.length_le h1
          exact absurd (hmpre.eq_of_length h2) hmne
      have hmmax : m.length ≤ (c :: cs).length - 1 := by
        simp only [List.length_cons] at hmlt ⊢
        omega
      have hmtake : m = (c :: cs).take m.length := List.prefix_iff_eq_take.1 hmpre
      have hnm := findParentFrom_none rib.table (c :: cs) _ h m.length hmmax
      rw [← hmtake] at hnm
      exact (tableFind_none_iff rib.table m).1 hnm hm
  · intro rib n q e hnames h
    cases n with
    | nil => simp [findParentT] at h
    | cons c cs =>
      simp only [findParentT] at h
      obtain ⟨j, _, hq, hfound, _⟩ := findParentFrom_some rib.table (c :: cs) _ q e h
      have hmem := tableFind_mem (hq ▸ hfound)
      exact hnames (q, e) hmem

/-- A concrete route for the C8 witness table. -/
def c8Route : Route :=
  { faceId := 1, origin := 0, cost := 0, childInherit := false, capture := false,
    expires := none, expirationEvent := none }

/-- A concrete RIB holding the root, a length-one prefix and a length-three
prefix. -/
def c8Rib : Rib :=
  (((Rib.emptyRib.insert [] c8Route).1.insert [1] c8Route).1.insert [1, 2, 3] c8Route).1

/-- The entry stored under the length-three prefix. -/
def c8Entry : RibEntry :=
  (tableFind c8Rib.table [1, 2, 3]).getD
    { name := [], routes := [], inheritedRoutes := [], parent := none, children := [] }

/-- Claim C8, witness: at a concrete table the parent of a four-component
name is the three-component entry, a strict prefix longest among the keys,
and its stored name agrees. -/
theorem claim_C8_witness :
    ([1, 2, 3] <+: [1, 2, 3, 4] ∧ [1, 2, 3] ≠ [1, 2, 3, 4] ∧
      tableFind c8Rib.table [1, 2, 3] = some c8Entry ∧
      ∀ m ∈ c8Rib.table.map Prod.fst,
        m <+: [1, 2, 3, 4] → m ≠ [1, 2, 3, 4] → m.length ≤ List.length [1, 2, 3]) ∧
    c8Entry.name = [1, 2, 3] :=
  ⟨claim_C8.1 c8Rib [1, 2, 3, 4] [1, 2, 3] c8Entry (by decide),
   claim_C8.2.2 c8Rib [1, 2, 3, 4] [1, 2, 3] c8Entry (by decide) (by decide)⟩

/-- No entry stored in the table has an empty own-routes list (invariant I3
of the spec). -/
def tableAllNonempty (t : RibTable) : Prop :=
  ∀ p ∈ t, p.2.routes ≠ []

/-- Every pair of the second table stems from a pair of the first with the
same key and the same own routes. -/
def keyRoutesCarried (t t2 : RibTable) : Prop :=
  ∀ p ∈ t2, ∃ q, q ∈ t ∧ p.1 = q.1 ∧ p.2.routes = q.2.routes

theorem keyRoutesCarried_refl (t : RibTable) : keyRoutesCarried t t :=
  fun p hp => ⟨p, hp, rfl, rfl⟩

theorem keyRoutesCarried_trans {a b c : RibTable}
    (h1 : keyRoutesCarried a b) (h2 : keyRoutesCarried b c) : keyRoutesCarried a c := by
  intro p hp
  obtain ⟨q, hq, hk, hr⟩ := h2 p hp
  obtain ⟨w, hw, hk2, hr2⟩ := h1 q hq
  exact ⟨w, hw, hk.trans hk2, hr.trans hr2⟩

theorem keyRoutesCarried_tableUpdate (t : RibTable) (n : NdnName) (f : RibEntry → RibEntry)
    (hf : ∀ e, (f e).routes = e.routes) : keyRoutesCarried t (tableUpdate t n f) := by
  intro p hp
  rcases List.mem_map.1 hp with ⟨q, hq, hpq⟩
  subst hpq
  by_cases hqn : q.1 = n
  · exact ⟨q, hq, by simp [hqn], by simp [hqn, hf]⟩
  · exact ⟨q, hq, by simp [hqn], by simp [hqn]⟩

theorem keyRoutesCarried_addChild (t : RibTable) (pn cn : NdnName) :
    keyRoutesCarried t (tableAddChild t pn cn) :=
  keyRoutesCarried_trans
    (keyRoutesCarried_tableUpdate t cn (fun c => { c with parent := some pn }) (fun _ => rfl))
    (keyRoutesCarried_tableUpdate _ pn (fun p => { p with children := p.children ++ [cn] })
      (fun _ => rfl))

theorem keyRoutesCarried_removeChild (t : RibTable) (pn cn : NdnName) :
    keyRoutesCarried t (tableRemoveChild t pn cn) :=
  keyRoutesCarried_trans
    (keyRoutesCarried_tableUpdate t cn (fun c => { c with parent := none }) (fun _ => rfl))
    (keyRoutesCarried_tableUpdate _ pn
      (fun p => { p with children := p.children.filter (fun x => !(x == cn)) })
      (fun _ => rfl))

theorem keyRoutesCarried_relink (pOpt : Option NdnName) (selfName : NdnName) :
    ∀ (cs : List NdnName) (t : RibTable),
      keyRoutesCarried t (relinkChildren pOpt selfName t cs) := by
  intro cs
  induction cs with
  | nil => intro t; exact keyRoutesCarried_refl t
  | cons c rest ih =>
    intro t
    cases pOpt with
    | none =>
      exact keyRoutesCarried_trans (keyRoutesCarried_removeChild t selfName c)
        (ih (tableRemoveChild t selfName c))
    | some pn =>
      exact keyRoutesCarried_trans
        (keyRoutesCarried_trans (keyRoutesCarried_removeChild t selfName c)
          (keyRoutesCarried_addChild _ pn c))
        (ih (tableAddChild (tableRemoveChild t selfName c) pn c))

theorem keyRoutesCarried_stealStep (pOpt : Option NdnName) (pfx : NdnName) (t : RibTable)
    (cn : NdnName) : keyRoutesCarried t (stealStep pOpt pfx t cn) := by
  cases hfind : tableFind t cn with
  | none =>
    simp only [stealStep, hfind]
    exact keyRoutesCarried_refl t
  | some child =>
    by_cases hpar : child.parent = pOpt
    · simp only [stealStep, hfind, if_pos hpar]
      cases pOpt with
      | none => exact keyRoutesCarried_addChild t pfx cn
      | some pn =>
        exact keyRoutesCarried_trans (keyRoutesCarried_removeChild t pn cn)
          (keyRoutesCarried_addChild _ pfx cn)
    · simp only [stealStep, hfind, if_neg hpar]
      exact keyRoutesCarried_refl t

theorem keyRoutesCarried_stealFold (pOpt : Option NdnName) (pfx : NdnName) :
    ∀ (l : List (NdnName × RibEntry)) (t : RibTable),
      keyRoutesCarried t (l.foldl (fun acc pr => stealStep pOpt pfx acc pr.1) t) := by
  intro l
  induction l with
  | nil => intro t; exact keyRoutesCarried_refl t
  | cons pr rest ih =>
    intro t
    exact keyRoutesCarried_trans (keyRoutesCarried_stealStep pOpt pfx t pr.1) (ih _)

theorem nonempty_of_carried {t t2 : RibTable} (hc : keyRoutesCarried t t2)
    (hne : tableAllNonempty t) : tableAllNonempty t2 := by
  intro p hp
  obtain ⟨q, hq, _, hr⟩ := hc p hp
  rw [hr]
  exact hne q hq

theorem nonempty_tableSet {t : RibTable} {n : NdnName} {e : RibEntry}
    (he : e.routes ≠ []) (hne : tableAllNonempty t) : tableAllNonempty (tableSet t n e) := by
  intro p hp
  rcases List.mem_map.1 hp with ⟨q, hq, hpq⟩
  subst hpq
  by_cases hqn : q.1 = n
  · simpa [hqn] using he
  · simpa [hqn] using hne q hq

theorem mem_tableInsertNew {t : RibTable} {n : NdnName} {e : RibEntry} :
    ∀ {p : NdnName × RibEntry}, p ∈ tableInsertNew t n e → p ∈ t ∨ p = (n, e) := by
  induction t with
  | nil =>
    intro p hp
    simp only [tableInsertNew, List.mem_singleton] at hp
    exact Or.inr hp
  | cons q rest ih =>
    intro p hp
    simp only [tableInsertNew] at hp
    by_cases hlt : nameLt n q.1
    · rw [if_pos hlt] at hp
      rcases List.mem_cons.1 hp with h1 | h1
      · exact Or.inr h1
      · exact Or.inl h1
    · rw [if_neg hlt] at hp
      rcases List.mem_cons.1 hp with h1 | h1
      · rw [h1]
        exact Or.inl (List.mem_cons_self q rest)
      · rcases ih h1 with h2 | h2
        · exact Or.inl (List.mem_cons_of_mem q h2)
        · exact Or.inr h2

theorem nonempty_tableInsertNew {t : RibTable} {n : NdnName} {e : RibEntry}
    (he : e.routes ≠ []) (hne : tableAllNonempty t) :
    tableAllNonempty (tableInsertNew t n e) := by
  intro p hp
  rcases mem_tableInsertNew hp with h1 | h1
  · exact hne p h1
  · rw [h1]
    exact he

theorem routeIdx_lt_length :
    ∀ (l : List Route) (r : Route) (i : Nat), routeIdx l r = some i → i < l.length := by
  intro l
  induction l with
  | nil =>
    intro r i h
    cases h
  | cons x xs ih =>
    intro r i h
    simp only [routeIdx] at h
    by_cases hk : routeKeyEq x r = true
    · rw [if_pos hk] at h
      cases h
      simp
    · rw [if_neg hk] at h
      cases hrec : routeIdx xs r with
      | none =>
        rw [hrec] at h
        cases h
      | some j =>
        rw [hrec] at h
        simp only [Option.map_some', Option.some.injEq] at h
        subst h
        simpa using Nat.succ_lt_succ (ih r j hrec)

theorem routesAt_tableUpdate (t : RibTable) (n : NdnName) (f : RibEntry → RibEntry)
    (m : NdnName) (hf : ∀ e, (f e).routes = e.routes) :
    (tableFind (tableUpdate t n f) m).map RibEntry.routes =
      (tableFind t m).map RibEntry.routes := by
  rw [tableFind_tableUpdate]
  by_cases h : m = n
  · subst h
    cases hfind : tableFind t m <;> simp [hfind, hf]
  · simp [h]

theorem routesAt_addChild (t : RibTable) (pn cn m : NdnName) :
    (tableFind (tableAddChild t pn cn) m).map RibEntry.routes =
      (tableFind t m).map RibEntry.routes := by
  rw [tableAddChild,
    routesAt_tableUpdate _ pn (fun p => { p with children := p.children ++ [cn] }) m
      (fun _ => rfl),
    routesAt_tableUpdate _ cn (fun c => { c with parent := some pn }) m (fun _ => rfl)]

theorem routesAt_removeChild (t : RibTable) (pn cn m : NdnName) :
    (tableFind (tableRemoveChild t pn cn) m).map RibEntry.routes =
      (tableFind t m).map RibEntry.routes := by
  rw [tableRemoveChild,
    routesAt_tableUpdate _ pn
      (fun p => { p with children := p.children.filter (fun x => !(x == cn)) }) m
      (fun _ => rfl),
    routesAt_tableUpdate _ cn (fun c => { c with parent := none }) m (fun _ => rfl)]

theorem routesAt_stealStep (pOpt : Option NdnName) (pfx : NdnName) (t : RibTable)
    (cn m : NdnName) :
    (tableFind (stealStep pOpt pfx t cn) m).map RibEntry.routes =
      (tableFind t m).map RibEntry.routes := by
  cases hfind : tableFind t cn with
  | none => simp [stealStep, hfind]
  | some child =>
    by_cases hpar : child.parent = pOpt
    · simp only [stealStep, hfind, if_pos hpar]
      cases pOpt with
      | none => rw [routesAt_addChild]
      | some pn => rw [routesAt_addChild, routesAt_removeChild]
    · simp [stealStep, hfind, hpar]

theorem routesAt_stealFold (pOpt : Option NdnName) (pfx : NdnName) :
    ∀ (l : List (NdnName × RibEntry)) (t : RibTable) (m : NdnName),
      (tableFind (l.foldl (fun acc pr => stealStep pOpt pfx acc pr.1) t) m).map RibEntry.routes =
        (tableFind t m).map RibEntry.routes := by
  intro l
  induction l with
  | nil =>
    intro t m
    rfl
  | cons pr rest ih =>
    intro t m
    rw [List.foldl_cons, ih, routesAt_stealStep]

theorem tableAddChild_lookup_other {t : RibTable} {pn cn m : NdnName}
    (h1 : ¬ m = pn) (h2 : ¬ m = cn) :
    tableFind (tableAddChild t pn cn) m = tableFind t m := by
  rw [tableAddChild, tableFind_tableUpdate, if_neg h1, tableFind_tableUpdate, if_neg h2]

theorem tableAddChild_lookup_child {t : RibTable} {pn cn : NdnName} (h : ¬ cn = pn) :
    tableFind (tableAddChild t pn cn) cn =
      (tableFind t cn).map (fun e => { e with parent := some pn }) := by
  rw [tableAddChild, tableFind_tableUpdate, if_neg h, tableFind_tableUpdate, if_pos rfl]

theorem tableAddChild_lookup_parent {t : RibTable} {pn cn : NdnName} (h : ¬ pn = cn) :
    tableFind (tableAddChild t pn cn) pn =
      (tableFind t pn).map (fun e => { e with children := e.children ++ [cn] }) := by
  rw [tableAddChild, tableFind_tableUpdate, if_pos rfl, tableFind_tableUpdate, if_neg h]

theorem tableRemoveChild_lookup_other {t : RibTable} {pn cn m : NdnName}
    (h1 : ¬ m = pn) (h2 : ¬ m = cn) :
    tableFind (tableRemoveChild t pn cn) m = tableFind t m := by
  rw [tableRemoveChild, tableFind_tableUpdate, if_neg h1, tableFind_tableUpdate, if_neg h2]

theorem tableRemoveChild_lookup_child {t : RibTable} {pn cn : NdnName} (h : ¬ cn = pn) :
    tableFind (tableRemoveChild t pn cn) cn =
      (tableFind t cn).map (fun e => { e with parent := none }) := by
  rw [tableRemoveChild, tableFind_tableUpdate, if_neg h, tableFind_tableUpdate, if_pos rfl]

theorem tableRemoveChild_lookup_parent {t : RibTable} {pn cn : NdnName} (h : ¬ pn = cn) :
    tableFind (tableRemoveChild t pn cn) pn =
      (tableFind t pn).map
        (fun e => { e with children := e.children.filter (fun x => !(x == cn)) }) := by
  rw [tableRemoveChild, tableFind_tableUpdate, if_pos rfl, tableFind_tableUpdate, if_neg h]

theorem relink_lookup_notmem (pOpt : Option NdnName) (selfName c : NdnName)
    (hcs : ¬ c = selfName) (hcp : ∀ pn, pOpt = some pn → ¬ c = pn) :
    ∀ (cs : List NdnName) (t : RibTable), c ∉ cs →
      tableFind (relinkChildren pOpt selfName t cs) c = tableFind t c := by
  intro cs
  induction cs with
  | nil =>
    intro t _
    rfl
  | cons x rest ih =>
    intro t hc
    have hcx : ¬ c = x := fun h => hc (h ▸ List.mem_cons_self x rest)
    have hcr : c ∉ rest := fun h => hc (List.mem_cons_of_mem x h)
    cases pOpt with
    | none =>
      show tableFind (relinkChildren none selfName (tableRemoveChild t selfName x) rest) c =
        tableFind t c
      rw [ih _ hcr]
      exact tableRemoveChild_lookup_other hcs hcx
    | some pn =>
      show tableFind (relinkChildren (some pn) selfName
          (tableAddChild (tableRemoveChild t selfName x) pn x) rest) c = tableFind t c
      rw [ih _ hcr]
      rw [tableAddChild_lookup_other (hcp pn rfl) hcx,
        tableRemoveChild_lookup_other hcs hcx]

theorem relink_lookup_mem (pOpt : Option NdnName) (selfName c : NdnName)
    (hcs : ¬ c = selfName) (hcp : ∀ pn, pOpt = some pn → ¬ c = pn) :
    ∀ (cs : List NdnName) (t : RibTable), c ∈ cs → cs.Nodup →
      tableFind (relinkChildren pOpt selfName t cs) c =
        (tableFind t c).map (fun e => { e with parent := pOpt }) := by
  intro cs
  induction cs with
  | nil =>
    intro t hc _
    cases hc
  | cons x rest ih =>
    intro t hc hnd
    rcases List.mem_cons.1 hc with h1 | h1
    · subst h1
      have hcr : c ∉ rest := (List.nodup_cons.1 hnd).1
      cases pOpt with
      | none =>
        show tableFind (relinkChildren none selfName (tableRemoveChild t selfName c) rest) c =
          (tableFind t c).map (fun e => { e with parent := none })
        rw [relink_lookup_notmem none selfName c hcs hcp rest _ hcr]
        exact tableRemoveChild_lookup_child hcs
      | some pn =>
        show tableFind (relinkChildren (some pn) selfName
            (tableAddChild (tableRemoveChild t selfName c) pn c) rest) c =
          (tableFind t c).map (fun e => { e with parent := some pn })
        rw [relink_lookup_notmem (some pn) selfName c hcs hcp rest _ hcr]
        rw [tableAddChild_lookup_child (hcp pn rfl), tableRemoveChild_lookup_child hcs]
        cases tableFind t c <;> rfl
    · have hcx : ¬ c = x := fun h => (List.nodup_cons.1 hnd).1 (h ▸ h1)
      cases pOpt with
      | none =>
        show tableFind (relinkChildren none selfName (tableRemoveChild t selfName x) rest) c =
          (tableFind t c).map (fun e => { e with parent := none })
        rw [ih _ h1 (List.nodup_cons.1 hnd).2]
        rw [tableRemoveChild_lookup_other hcs hcx]
      | some pn =>
        show tableFind (relinkChildren (some pn) selfName
            (tableAddChild (tableRemoveChild t selfName x) pn x) rest) c =
          (tableFind t c).map (fun e => { e with parent := some pn })
        rw [ih _ h1 (List.nodup_cons.1 hnd).2]
        rw [tableAddChild_lookup_other (hcp pn rfl) hcx,
          tableRemoveChild_lookup_other hcs hcx]

theorem relink_lookup_parent (pn selfName : NdnName) (hps : ¬ pn = selfName) :
    ∀ (cs : List NdnName) (t : RibTable), pn ∉ cs →
      tableFind (relinkChildren (some pn) selfName t cs) pn =
        (tableFind t pn).map (fun e => { e with children := e.children ++ cs }) := by
  intro cs
  induction cs with
  | nil =>
    intro t _
    cases hfind : tableFind t pn <;> simp [relinkChildren, hfind]
  | cons x rest ih =>
    intro t h
    have hx : ¬ pn = x := fun hc => h (hc ▸ List.mem_cons_self x rest)
    have hrest : pn ∉ rest := fun hc => h (List.mem_cons_of_mem x hc)
    show tableFind (relinkChildren (some pn) selfName
        (tableAddChild (tableRemoveChild t selfName x) pn x) rest) pn =
      (tableFind t pn).map (fun e => { e with children := e.children ++ x :: rest })
    rw [ih _ hrest]
    rw [tableAddChild_lookup_parent hx, tableRemoveChild_lookup_other hps hx]
    cases tableFind t pn <;> simp

instance (t : RibTable) : Decidable (tableAllNonempty t) :=
  inferInstanceAs (Decidable (∀ p ∈ t, p.2.routes ≠ []))

theorem routesAt_insertNewTable2 (t1 : RibTable) (pfx : NdnName) (pOpt : Option NdnName)
    (m : NdnName) :
    (tableFind (insertNewTable2 t1 pfx pOpt) m).map RibEntry.routes =
      (tableFind t1 m).map RibEntry.routes :=
  routesAt_stealFold pOpt pfx (descendantPairs t1 pfx) t1 m

theorem routesAt_insertNewTable1 (t0 : RibTable) (pfx : NdnName) (pOpt : Option NdnName)
    (m : NdnName) :
    (tableFind (insertNewTable1 t0 pfx pOpt) m).map RibEntry.routes =
      (tableFind t0 m).map RibEntry.routes := by
  cases pOpt with
  | none => rfl
  | some pn => exact routesAt_addChild t0 pn pfx m

theorem nonempty_eraseCore {t : RibTable} {pfx : NdnName} {e2 : RibEntry} {X : RibTable}
    (hcar : keyRoutesCarried (tableSet t pfx e2) X) (hne : tableAllNonempty t) :
    tableAllNonempty (tableErase X pfx) := by
  intro p hp
  have hp2 := List.mem_filter.1 hp
  have hpk : ¬ (p.1 = pfx) := by simpa using hp2.2
  obtain ⟨q, hq, hk, hr⟩ := hcar p hp2.1
  simp only [tableSet, tableUpdate] at hq
  rcases List.mem_map.1 hq with ⟨q3, hq3, hq32⟩
  by_cases hq3n : q3.1 = pfx
  · exfalso
    apply hpk
    rw [hk, ← hq32]
    simp [hq3n]
  · have hqeq : q = q3 := by
      rw [← hq32]
      simp [hq3n]
    rw [hr, hqeq]
    exact hne q3 hq3

/-- Claim C7.  After every insert and erase the table still holds no entry
with an empty own-routes list; insert at a fresh prefix creates the entry
with exactly the given route; erase removes the entry from the table exactly
when the last own route went away, and in that case every child of the
vanished entry is re-linked to the parent of the entry (or left parentless),
the parent in turn losing the entry and gaining its children. -/
theorem claim_C7 :
    (∀ (rib : Rib) (pfx : NdnName) (route : Route),
       tableAllNonempty rib.table → tableAllNonempty ((rib.insert pfx route).1).table) ∧
    (∀ (rib : Rib) (pfx : NdnName) (route : Route),
       tableAllNonempty rib.table → tableAllNonempty ((rib.erase pfx route).1).table) ∧
    (∀ (rib : Rib) (pfx : NdnName) (route : Route),
       tableFind rib.table pfx = none →
       (tableFind ((rib.insert pfx route).1).table pfx).map RibEntry.routes = some [route]) ∧
    (∀ (rib : Rib) (pfx : NdnName) (route : Route) (entry : RibEntry) (i : Nat),
       tableFind rib.table pfx = some entry →
       entry.findRouteIdx route = some i →
       ((tableFind ((rib.erase pfx route).1).table pfx).isSome ↔
         entry.routes.length ≠ 1)) ∧
    (∀ (rib : Rib) (pfx : NdnName) (route : Route) (entry : RibEntry) (i : Nat) (c : NdnName),
       tableFind rib.table pfx = some entry →
       entry.findRouteIdx route = some i →
       (entry.eraseRouteAt i).routes.isEmpty = true →
       c ∈ entry.children → entry.children.Nodup → ¬ c = pfx →
       (∀ pn, entry.parent = some pn → ¬ c = pn) →
       tableFind ((rib.erase pfx route).1).table c =
         (tableFind rib.table c).map (fun e => { e with parent := entry.parent })) ∧
    (∀ (rib : Rib) (pfx : NdnName) (route : Route) (entry : RibEntry) (i : Nat) (pn : NdnName),
       tableFind rib.table pfx = some entry →
       entry.findRouteIdx route = some i →
       (entry.eraseRouteAt i).routes.isEmpty = true →
       entry.parent = some pn → ¬ pn = pfx → pn ∉ entry.children →
       tableFind ((rib.erase pfx route).1).table pn =
         (tableFind rib.table pn).map
           (fun e => { e with
               children := e.children.filter (fun x => !(x == pfx)) ++ entry.children })) := by
  refine ⟨?_, ?_, ?_, ?_, ?_, ?_⟩
  · intro rib pfx route hne
    cases hfind : tableFind rib.table pfx with
    | some entry =>
      have hene : entry.routes ≠ [] := hne (pfx, entry) (tableFind_mem hfind)
      cases hidx : entry.findRouteIdx route with
      | some i =>
        have hins : RibEntry.insertRoute entry route = (entry, i, false) := by
          simp [RibEntry.insertRoute, hidx]
        simp only [Rib.insert, hfind, hins]
        refine nonempty_tableSet ?_ hne
        intro hcon
        have hlen := congrArg List.length hcon
        simp only [List.length_set, List.length_nil] at hlen
        exact hene (List.length_eq_zero.1 hlen)
      | none =>
        have hins : RibEntry.insertRoute entry route =
            ({ entry with routes := entry.routes ++ [route] }, entry.routes.length, true) := by
          simp [RibEntry.insertRoute, hidx]
        simp only [Rib.insert, hfind, hins]
        refine nonempty_tableSet ?_ hne
        simp
    | none =>
      simp only [Rib.insert, hfind]
      show tableAllNonempty (insertNewTableFull rib.table pfx route)
      have hne0 : tableAllNonempty (insertNewTable0 rib.table pfx route) := by
        refine nonempty_tableInsertNew ?_ hne
        simp [newEntryFor, RibEntry.insertRoute, RibEntry.findRouteIdx, routeIdx]
      have hcar1 : keyRoutesCarried (insertNewTable0 rib.table pfx route)
          (insertNewTable1 (insertNewTable0 rib.table pfx route) pfx
            (parentKey (insertNewTable0 rib.table pfx route) pfx)) := by
        cases hpk : parentKey (insertNewTable0 rib.table pfx route) pfx with
        | none => exact keyRoutesCarried_refl _
        | some pn => exact keyRoutesCarried_addChild _ pn pfx
      exact nonempty_of_carried
        (keyRoutesCarried_trans hcar1
          (keyRoutesCarried_stealFold
            (parentKey (insertNewTable0 rib.table pfx route) pfx) pfx _ _))
        hne0
  · intro rib pfx route hne
    cases hfind : tableFind rib.table pfx with
    | none => simpa [Rib.erase, hfind] using hne
    | some entry =>
      cases hidx : entry.findRouteIdx route with
      | none => simpa [Rib.erase, hfind, hidx] using hne
      | some i =>
        simp only [Rib.erase, hfind, hidx]
        by_cases hemp : (entry.eraseRouteAt i).routes.isEmpty
        · have hfind1 : tableFind (tableSet rib.table pfx (entry.eraseRouteAt i)) pfx =
              some (entry.eraseRouteAt i) := by
            rw [tableFind_tableSet, if_pos rfl, hfind]
            rfl
          simp only [eraseFound, hemp, if_true, tableEraseEntry, hfind1]
          cases hpar : (entry.eraseRouteAt i).parent with
          | none =>
            exact nonempty_eraseCore
              (keyRoutesCarried_relink none pfx (entry.eraseRouteAt i).children _) hne
          | some pn =>
            exact nonempty_eraseCore
              (keyRoutesCarried_trans (keyRoutesCarried_removeChild _ pn pfx)
                (keyRoutesCarried_relink (some pn) pfx (entry.eraseRouteAt i).children _)) hne
        · simp only [eraseFound, hemp, Bool.false_eq_true, if_false]
          refine nonempty_tableSet ?_ hne
          intro hcon
          apply hemp
          simp [RibEntry.eraseRouteAt] at hcon ⊢
          simp [hcon]
  · intro rib pfx route hfind
    simp only [Rib.insert, hfind]
    show (tableFind (insertNewTableFull rib.table pfx route) pfx).map RibEntry.routes =
      some [route]
    rw [insertNewTableFull, routesAt_insertNewTable2, routesAt_insertNewTable1,
      insertNewTable0, tableFind_tableInsertNew rib.table pfx _ pfx hfind, if_pos rfl]
    simp [newEntryFor, RibEntry.insertRoute, RibEntry.findRouteIdx, routeIdx]
  · intro rib pfx route entry i hfind hidx
    have hlt : i < entry.routes.length := routeIdx_lt_length entry.routes route i hidx
    have hlen : (entry.routes.eraseIdx i).length + 1 = entry.routes.length :=
      List.length_eraseIdx_add_one hlt
    simp only [Rib.erase, hfind, hidx]
    by_cases hemp : (entry.eraseRouteAt i).routes.isEmpty
    · have hfind1 : tableFind (tableSet rib.table pfx (entry.eraseRouteAt i)) pfx =
          some (entry.eraseRouteAt i) := by
        rw [tableFind_tableSet, if_pos rfl, hfind]
        rfl
      simp only [eraseFound, hemp, if_true, tableEraseEntry, hfind1]
      rw [tableFind_tableErase, if_pos rfl]
      have hnil : entry.routes.eraseIdx i = [] := by
        simpa [RibEntry.eraseRouteAt, List.isEmpty_iff] using hemp
      have h0 : (entry.routes.eraseIdx i).length = 0 := by rw [hnil]; rfl
      simp only [Option.isSome_none, Bool.false_eq_true, false_iff, ne_eq, not_not]
      omega
    · simp only [eraseFound, hemp, Bool.false_eq_true, if_false]
      rw [tableFind_tableSet, if_pos rfl, hfind]
      simp only [Option.map_some', Option.isSome_some, true_iff, ne_eq]
      intro hcon
      apply hemp
      have h0 : (entry.routes.eraseIdx i).length = 0 := by omega
      have hnil : entry.routes.eraseIdx i = [] := List.length_eq_zero.1 h0
      show (entry.routes.eraseIdx i).isEmpty = true
      rw [hnil]
      rfl
  · intro rib pfx route entry i c hfind hidx hemp hcmem hcnd hcpfx hcpn
    simp only [Rib.erase, hfind, hidx]
    have hfind1 : tableFind (tableSet rib.table pfx (entry.eraseRouteAt i)) pfx =
        some (entry.eraseRouteAt i) := by
      rw [tableFind_tableSet, if_pos rfl, hfind]
      rfl
    simp only [eraseFound, hemp, if_true, tableEraseEntry, hfind1]
    rw [tableFind_tableErase, if_neg hcpfx]
    simp only [RibEntry.eraseRouteAt]
    cases hpar : entry.parent with
    | none =>
      rw [relink_lookup_mem none pfx c hcpfx (fun pn h => by cases h) entry.children _
          hcmem hcnd]
      rw [tableFind_tableSet, if_neg hcpfx]
    | some pn =>
      have hcp2 : ¬ c = pn := hcpn pn hpar
      rw [relink_lookup_mem (some pn) pfx c hcpfx
          (fun pn2 h2 => by cases h2; exact hcp2) entry.children _ hcmem hcnd]
      rw [tableRemoveChild_lookup_other hcp2 hcpfx, tableFind_tableSet, if_neg hcpfx]
  · intro rib pfx route entry i pn hfind hidx hemp hpar hpnpfx hpnmem
    simp only [Rib.erase, hfind, hidx]
    have hfind1 : tableFind (tableSet rib.table pfx (entry.eraseRouteAt i)) pfx =
        some (entry.eraseRouteAt i) := by
      rw [tableFind_tableSet, if_pos rfl, hfind]
      rfl
    simp only [eraseFound, hemp, if_true, tableEraseEntry, hfind1]
    rw [tableFind_tableErase, if_neg hpnpfx]
    simp only [RibEntry.eraseRouteAt]
    rw [hpar]
    rw [relink_lookup_parent pn pfx hpnpfx entry.children _ hpnmem]
    rw [tableRemoveChild_lookup_parent hpnpfx, tableFind_tableSet, if_neg hpnpfx]
    cases tableFind rib.table pn <;> simp

/-- Routes of the three entries of the C7 witness RIB. -/
def c7RouteA : Route :=
  { faceId := 1, origin := 0, cost := 0, childInherit := false, capture := false,
    expires := none, expirationEvent := none }

/-- Route of the middle entry. -/
def c7RouteB : Route :=
  { faceId := 2, origin := 0, cost := 0, childInherit := false, capture := false,
    expires := none, expirationEvent := none }

/-- Route of the deepest entry. -/
def c7RouteC : Route :=
  { faceId := 3, origin := 0, cost := 0, childInherit := false, capture := false,
    expires := none, expirationEvent := none }

/-- A three-entry chain: erasing the middle entry must relink the deepest
entry to the root. -/
def c7Rib : Rib :=
  (((Rib.emptyRib.insert [1] c7RouteA).1.insert [1, 2] c7RouteB).1.insert [1, 2, 3] c7RouteC).1

/-- The middle entry of the chain. -/
def c7Entry12 : RibEntry :=
  (tableFind c7Rib.table [1, 2]).getD
    { name := [], routes := [], inheritedRoutes := [], parent := none, children := [] }

/-- Claim C7, witness: erasing the single route of the middle entry keeps
the no-empty-entry invariant, removes the entry (its route list had length
one), re-links the deepest entry to the root and hands it over to the root
children list; a fresh insert stores exactly the given route. -/
theorem claim_C7_witness :
    tableAllNonempty ((c7Rib.erase [1, 2] c7RouteB).1).table ∧
    ((tableFind ((c7Rib.erase [1, 2] c7RouteB).1).table [1, 2]).isSome ↔
      c7Entry12.routes.length ≠ 1) ∧
    tableFind ((c7Rib.erase [1, 2] c7RouteB).1).table [1, 2, 3] =
      (tableFind c7Rib.table [1, 2, 3]).map (fun e => { e with parent := c7Entry12.parent }) ∧
    tableFind ((c7Rib.erase [1, 2] c7RouteB).1).table [1] =
      (tableFind c7Rib.table [1]).map
        (fun e => { e with
            children := e.children.filter (fun x => !(x == [1, 2])) ++ c7Entry12.children }) ∧
    (tableFind ((c7Rib.insert [9] c7RouteA).1).table [9]).map RibEntry.routes =
      some [c7RouteA] :=
  ⟨claim_C7.2.1 c7Rib [1, 2] c7RouteB (by decide),
   claim_C7.2.2.2.1 c7Rib [1, 2] c7RouteB c7Entry12 0 (by decide) (by decide),
   claim_C7.2.2.2.2.1 c7Rib [1, 2] c7RouteB c7Entry12 0 [1, 2, 3] (by decide) (by decide)
     (by decide) (by decide) (by decide) (by decide)
     (fun pn h => by
       rw [show c7Entry12.parent = some [1] from by decide] at h
       cases h
       decide),
   claim_C7.2.2.2.2.2 c7Rib [1, 2] c7RouteB c7Entry12 0 [1] (by decide) (by decide)
     (by decide) (by decide) (by decide) (by decide),
   claim_C7.2.2.1 c7Rib [9] c7RouteA (by decide)⟩

end NfdRib
